import Mathlib

/-!
Shallow embedding of the PulseQ distributed test-execution coordinator:
the `MasterNode` class of `src/distributed/master/MasterNode.ts` over the
data model of `src/distributed/common/types.ts`, together with proofs
about its registration, heartbeat, scheduling, result-processing and
health-sweep behaviour.

Modelling conventions:
* JavaScript `Date` values are `Nat` milliseconds; each public operation
  takes the current time as an explicit `now` argument.
* ECMAScript `Map` objects are insertion-ordered association lists
  (`List`), with `set` replacing in place on an existing key and appending
  otherwise, matching the `Map` iteration-order semantics that
  `MasterNode` relies on (`workers.values()`, `tasks.values()`).
* `uuidv4()` task ids are modelled by a fresh counter (`nextId`): the code
  uses task ids only as unique map keys, and the counter additionally
  records submission order (ids issued later are larger).
* `Array.prototype.sort` is stable (ECMAScript 2019), and the comparator
  in `submitTask` orders by priority descending, so the queue sort is
  embedded as a stable insertion sort by priority descending.
* `retryCount` on `Task` mirrors the repository's declared `TestTask`
  interface field (Phase-3 technical specification and the interface
  appendix shipped with `master/api.ts`).  `MasterNode` itself never reads
  or writes any retry field; the embedding makes that literal: no
  operation below ever touches `retryCount`.
* Thrown JavaScript errors become `Except.error` with the thrown message;
  both throwing operations (`processHeartbeat`, `processTaskResult`) throw
  before mutating anything, so the pure `Except` embedding is faithful.
-/

namespace PulseQ

/-- Worker liveness states, from `WorkerStatus` in `common/types.ts`. -/
inductive WorkerStatus
  | IDLE
  | BUSY
  | OFFLINE
  deriving DecidableEq, Repr

/-- Task lifecycle states, from `TaskStatus` in `common/types.ts`. -/
inductive TaskStatus
  | PENDING
  | ASSIGNED
  | RUNNING
  | COMPLETED
  | FAILED
  deriving DecidableEq, Repr

/-- Boolean test for the `status === WorkerStatus.IDLE` comparisons. -/
def WorkerStatus.isIdle : WorkerStatus → Bool
  | .IDLE => true
  | _ => false

/-- Boolean test for `status === ASSIGNED || status === RUNNING` (the
health sweep's reassignment condition). -/
def TaskStatus.isActive : TaskStatus → Bool
  | .ASSIGNED => true
  | .RUNNING => true
  | _ => false

/-- Boolean test for `status === COMPLETED || status === FAILED` (the
worker-freeing condition in `processTaskResult`). -/
def TaskStatus.isFinished : TaskStatus → Bool
  | .COMPLETED => true
  | .FAILED => true
  | _ => false

/-- A registered worker, from the `WorkerNode` interface of
`common/types.ts` (fields: id, host, port, status, capabilities,
lastHeartbeat). -/
structure WorkerNode where
  id : String
  host : String
  port : Nat
  status : WorkerStatus
  capabilities : List String
  lastHeartbeat : Nat
  deriving DecidableEq, Repr

/-- A submitted task, from the `Task` interface of `common/types.ts`
(fields: id, type, payload, priority, status, assignedWorker, createdAt,
updatedAt).  `retryCount` is the ghost field mirroring the repository's
`TestTask` declaration; no `MasterNode` operation reads or writes it. -/
structure Task where
  id : Nat
  type : String
  payload : String
  priority : Int
  status : TaskStatus
  assignedWorker : Option String
  createdAt : Nat
  updatedAt : Nat
  retryCount : Nat
  deriving DecidableEq, Repr

/-- A registration request, from the `WorkerRegistration` interface. -/
structure WorkerRegistration where
  workerId : String
  host : String
  port : Nat
  capabilities : List String
  deriving DecidableEq, Repr

/-- A heartbeat message, from the `Heartbeat` interface. -/
structure Heartbeat where
  workerId : String
  status : WorkerStatus
  currentTaskId : Option Nat
  timestamp : Nat
  deriving DecidableEq, Repr

/-- A task result message, from the `TaskResult` interface. -/
structure TaskResult where
  taskId : Nat
  status : TaskStatus
  error : Option String
  duration : Nat
  deriving DecidableEq, Repr

/-- The mutable state of a `MasterNode`: the `workers` map, the `tasks`
map, the `taskQueue` array of task ids, plus the fresh-id counter that
stands in for `uuidv4`. -/
structure MasterState where
  workers : List WorkerNode
  tasks : List Task
  taskQueue : List Nat
  nextId : Nat
  deriving DecidableEq, Repr

/-- The state built by the `MasterNode` constructor: empty maps and an
empty queue. -/
def initialState : MasterState :=
  { workers := [], tasks := [], taskQueue := [], nextId := 0 }

/-- Key lookup in the workers map, `this.workers.get(wid)`. -/
def findWorker : List WorkerNode → String → Option WorkerNode
  | [], _ => none
  | w :: ws, wid => if w.id = wid then some w else findWorker ws wid

/-- Key lookup in the tasks map, `this.tasks.get(tid)`. -/
def findTask : List Task → Nat → Option Task
  | [], _ => none
  | t :: ts, tid => if t.id = tid then some t else findTask ts tid

/-- `this.workers.get(wid)` on a state. -/
def lookupWorker (s : MasterState) (wid : String) : Option WorkerNode :=
  findWorker s.workers wid

/-- `this.tasks.get(tid)` on a state. -/
def lookupTask (s : MasterState) (tid : Nat) : Option Task :=
  findTask s.tasks tid

/-- In-place mutation of the worker stored under `wid` (JavaScript object
mutation through a `Map`-held reference). -/
def updateWorker (ws : List WorkerNode) (wid : String) (f : WorkerNode → WorkerNode) :
    List WorkerNode :=
  ws.map (fun w => if w.id = wid then f w else w)

/-- In-place mutation of the task stored under `tid`. -/
def updateTask (ts : List Task) (tid : Nat) (f : Task → Task) : List Task :=
  ts.map (fun t => if t.id = tid then f t else t)

/-- `Map.set` for the workers map: replace in place when the key exists,
append otherwise. -/
def setWorker : List WorkerNode → WorkerNode → List WorkerNode
  | [], w => [w]
  | x :: ws, w => if x.id = w.id then w :: ws else x :: setWorker ws w

/-- `Map.set` for the tasks map. -/
def setTask : List Task → Task → List Task
  | [], t => [t]
  | x :: ts, t => if x.id = t.id then t :: ts else x :: setTask ts t

/-- The first IDLE worker in map order,
`Array.from(this.workers.values()).find(w => w.status === IDLE)`. -/
def findIdle : List WorkerNode → Option WorkerNode
  | [] => none
  | w :: ws => if w.status.isIdle then some w else findIdle ws

/-- The priority read by the queue-sort comparator,
`this.tasks.get(id)!.priority` (defaulting an impossible missing lookup
to 0). -/
def prioOf (ts : List Task) (tid : Nat) : Int :=
  ((findTask ts tid).map Task.priority).getD 0

/-- Priority of a queued task id in a state. -/
def prio (s : MasterState) (tid : Nat) : Int :=
  prioOf s.tasks tid

/-- Stable insertion into a priority-descending list: `x` goes before the
first element whose priority is `≤` its own, so an earlier-submitted task
stays ahead of later equal-priority tasks. -/
def insertQ (p : Nat → Int) (x : Nat) : List Nat → List Nat
  | [] => [x]
  | y :: ys => if p y ≤ p x then x :: y :: ys else y :: insertQ p x ys

/-- The `taskQueue.sort((a, b) => taskB.priority - taskA.priority)` call:
a stable sort by priority descending (ECMAScript sort is stable, and a
stable sorted permutation is unique, so insertion sort realises it). -/
def sortQ (p : Nat → Int) : List Nat → List Nat
  | [] => []
  | x :: xs => insertQ p x (sortQ p xs)

/-- Worker resolution at the top of `assignNextTask`: the explicitly
passed worker, else the first IDLE worker in map order (else nobody). -/
def resolveWorker (chosen : Option String) (s : MasterState) : Option WorkerNode :=
  match chosen with
  | some wid => lookupWorker s wid
  | none => findIdle s.workers

/-- The task-side field writes of an assignment:
`task.status = ASSIGNED; task.assignedWorker = worker.id;
task.updatedAt = new Date()`. -/
def markAssigned (now : Nat) (wid : String) (t : Task) : Task :=
  { t with status := TaskStatus.ASSIGNED, assignedWorker := some wid, updatedAt := now }

/-- The worker-side field write of an assignment: `worker.status = BUSY`. -/
def markBusy (x : WorkerNode) : WorkerNode :=
  { x with status := WorkerStatus.BUSY }

/-- The body of `assignNextTask` once a worker is in hand: bail out unless
it is IDLE, then shift the queue head and, when the task exists, mark it
ASSIGNED to the worker and the worker BUSY. -/
def assignTo (now : Nat) (w : WorkerNode) (s : MasterState) : MasterState :=
  if w.status.isIdle then
    match s.taskQueue with
    | [] => s
    | tid :: rest =>
      match lookupTask s tid with
      | none => { s with taskQueue := rest }
      | some _ =>
        { s with
          taskQueue := rest
          tasks := updateTask s.tasks tid (markAssigned now w.id)
          workers := updateWorker s.workers w.id markBusy }
  else s

/-- `MasterNode.assignNextTask(worker?)`. -/
def assignNextTask (now : Nat) (chosen : Option String) (s : MasterState) : MasterState :=
  match resolveWorker chosen s with
  | none => s
  | some w => assignTo now w s

/-- `MasterNode.registerWorker`: unconditionally build an IDLE worker
record with `lastHeartbeat = now` and `Map.set` it; returns the record. -/
def registerWorker (now : Nat) (reg : WorkerRegistration) (s : MasterState) :
    WorkerNode × MasterState :=
  let w : WorkerNode :=
    { id := reg.workerId, host := reg.host, port := reg.port,
      status := WorkerStatus.IDLE, capabilities := reg.capabilities,
      lastHeartbeat := now }
  (w, { s with workers := setWorker s.workers w })

/-- The field writes of heartbeat processing:
`worker.status = heartbeat.status; worker.lastHeartbeat =
heartbeat.timestamp`. -/
def applyHeartbeat (hb : Heartbeat) (x : WorkerNode) : WorkerNode :=
  { x with status := hb.status, lastHeartbeat := hb.timestamp }

/-- `MasterNode.processHeartbeat`: throw if the worker is unknown, else
overwrite its status and heartbeat timestamp with the reported values and,
when the reported status is IDLE, immediately try an assignment for it. -/
def processHeartbeat (now : Nat) (hb : Heartbeat) (s : MasterState) :
    Except String MasterState :=
  match lookupWorker s hb.workerId with
  | none => Except.error ("Worker " ++ hb.workerId ++ " not found")
  | some w =>
    let s1 := { s with
      workers := updateWorker s.workers w.id (applyHeartbeat hb) }
    if hb.status = WorkerStatus.IDLE then
      Except.ok (assignNextTask now (some w.id) s1)
    else
      Except.ok s1

/-- The task record built by `submitTask`: PENDING, unassigned, with the
given spec fields and both timestamps set to now.  The source's `Task`
carries no retry field, so the ghost `retryCount` is initialised to 0 and
never read. -/
def newTaskOf (now : Nat) (taskType : String) (payload : String) (priority : Int)
    (tid : Nat) : Task :=
  { id := tid, type := taskType, payload := payload, priority := priority,
    status := TaskStatus.PENDING, assignedWorker := none,
    createdAt := now, updatedAt := now, retryCount := 0 }

/-- The state after `submitTask`'s map insert, queue push and re-sort,
before its closing `assignNextTask()` call. -/
def submitState (now : Nat) (taskType : String) (payload : String) (priority : Int)
    (s : MasterState) : MasterState :=
  let task := newTaskOf now taskType payload priority s.nextId
  let tasks1 := setTask s.tasks task
  { s with
    tasks := tasks1
    taskQueue := sortQ (prioOf tasks1) (s.taskQueue ++ [task.id])
    nextId := s.nextId + 1 }

/-- `MasterNode.submitTask`: create a PENDING task under a fresh id, push
it, re-sort the whole queue by priority descending (stably), then try an
assignment with no particular worker; returns the new id. -/
def submitTask (now : Nat) (taskType : String) (payload : String) (priority : Int)
    (s : MasterState) : Nat × MasterState :=
  (s.nextId, assignNextTask now none (submitState now taskType payload priority s))

/-- The field writes of result processing on the task:
`task.status = result.status; task.updatedAt = new Date()`. -/
def applyResultStatus (now : Nat) (st : TaskStatus) (x : Task) : Task :=
  { x with status := st, updatedAt := now }

/-- The worker-freeing write of result processing: `worker.status = IDLE`. -/
def markIdle (x : WorkerNode) : WorkerNode :=
  { x with status := WorkerStatus.IDLE }

/-- `MasterNode.processTaskResult`: throw if the task is unknown, else
overwrite its status with the reported one and, when that status is
COMPLETED or FAILED, set the worker recorded in `assignedWorker` (if any
and still registered) to IDLE and try an assignment for it. -/
def processTaskResult (now : Nat) (r : TaskResult) (s : MasterState) :
    Except String MasterState :=
  match lookupTask s r.taskId with
  | none => Except.error ("Task " ++ toString r.taskId ++ " not found")
  | some t =>
    let s1 := { s with
      tasks := updateTask s.tasks t.id (applyResultStatus now r.status) }
    if r.status.isFinished then
      match t.assignedWorker with
      | none => Except.ok s1
      | some wid =>
        match lookupWorker s1 wid with
        | none => Except.ok s1
        | some _ =>
          let s2 := { s1 with workers := updateWorker s1.workers wid markIdle }
          Except.ok (assignNextTask now (some wid) s2)
    else Except.ok s1

/-- The health sweep's reassignment condition on one task:
`task.assignedWorker === workerId && (ASSIGNED || RUNNING)`. -/
def sweepHit (wid : String) (t : Task) : Bool :=
  t.assignedWorker == some wid && t.status.isActive

/-- The sweep's worker write: `worker.status = OFFLINE`. -/
def markOffline (w : WorkerNode) : WorkerNode :=
  { w with status := WorkerStatus.OFFLINE }

/-- The sweep's task writes on a reassigned task:
`task.status = PENDING; task.assignedWorker = undefined`. -/
def sweepClear (t : Task) : Task :=
  { t with status := TaskStatus.PENDING, assignedWorker := none }

/-- One timed-out worker's treatment inside the health sweep: mark it
OFFLINE and move every task recorded as ASSIGNED or RUNNING on it back to
PENDING with `assignedWorker` cleared, pushing each such id onto the queue
in task-map order (no re-sort). -/
def applyOffline (wid : String) (s : MasterState) : MasterState :=
  { s with
    workers := updateWorker s.workers wid markOffline
    tasks := s.tasks.map fun t => if sweepHit wid t then sweepClear t else t
    taskQueue := s.taskQueue ++ ((s.tasks.filter (sweepHit wid)).map Task.id) }

/-- The health-monitoring sweep body, iterating the workers map in order;
no sweep step modifies `lastHeartbeat` or the worker key set, so iterating
over the entry snapshot is exactly the live `Map` iteration. -/
def sweepGo (now : Nat) : List WorkerNode → MasterState → MasterState
  | [], s => s
  | w :: ws, s =>
    sweepGo now ws (if 30000 < now - w.lastHeartbeat then applyOffline w.id s else s)

/-- One firing of the `setInterval` callback installed by
`startHealthMonitoring`: every worker whose last heartbeat is more than
30000 ms old is marked OFFLINE and its active tasks are re-enqueued. -/
def healthSweep (now : Nat) (s : MasterState) : MasterState :=
  sweepGo now s.workers s

/-- Convenience runner unwrapping a successful `processHeartbeat`. -/
def runHeartbeat (now : Nat) (hb : Heartbeat) (s : MasterState) : MasterState :=
  (processHeartbeat now hb s).toOption.getD s

/-- Convenience runner unwrapping a successful `processTaskResult`. -/
def runResult (now : Nat) (r : TaskResult) (s : MasterState) : MasterState :=
  (processTaskResult now r s).toOption.getD s

/-- One public operation of `MasterNode`, as a step relation on states. -/
inductive Step : MasterState → MasterState → Prop
  | register (s : MasterState) (now : Nat) (reg : WorkerRegistration) :
      Step s (registerWorker now reg s).2
  | heartbeat (s s' : MasterState) (now : Nat) (hb : Heartbeat)
      (h : processHeartbeat now hb s = Except.ok s') : Step s s'
  | submit (s : MasterState) (now : Nat) (taskType payload : String) (priority : Int) :
      Step s (submitTask now taskType payload priority s).2
  | result (s s' : MasterState) (now : Nat) (r : TaskResult)
      (h : processTaskResult now r s = Except.ok s') : Step s s'
  | sweep (s : MasterState) (now : Nat) : Step s (healthSweep now s)

/-- States reachable from a fresh `MasterNode` by any sequence of public
operations and health sweeps. -/
inductive Reachable : MasterState → Prop
  | init : Reachable initialState
  | step (s s' : MasterState) : Reachable s → Step s s' → Reachable s'

/-- A step that is not a health sweep (registration, heartbeat,
submission, or result processing). -/
inductive StepNS : MasterState → MasterState → Prop
  | register (s : MasterState) (now : Nat) (reg : WorkerRegistration) :
      StepNS s (registerWorker now reg s).2
  | heartbeat (s s' : MasterState) (now : Nat) (hb : Heartbeat)
      (h : processHeartbeat now hb s = Except.ok s') : StepNS s s'
  | submit (s : MasterState) (now : Nat) (taskType payload : String) (priority : Int) :
      StepNS s (submitTask now taskType payload priority s).2
  | result (s s' : MasterState) (now : Nat) (r : TaskResult)
      (h : processTaskResult now r s = Except.ok s') : StepNS s s'

/-- States reachable from a fresh `MasterNode` without any health sweep
firing. -/
inductive ReachableNS : MasterState → Prop
  | init : ReachableNS initialState
  | step (s s' : MasterState) : ReachableNS s → StepNS s s' → ReachableNS s'

/-! ### Concrete registrations, states and traces used in scenario proofs -/

/-- A first worker registration. -/
def regW1 : WorkerRegistration :=
  { workerId := "w1", host := "h", port := 1, capabilities := [] }

/-- A second worker registration. -/
def regW2 : WorkerRegistration :=
  { workerId := "w2", host := "h", port := 2, capabilities := [] }

/-- Priority-ordering scenario: one worker registered at time 0. -/
def c8s1 : MasterState := (registerWorker 0 regW1 initialState).2

/-- After submitting the first task (priority 5): it is assigned at once. -/
def c8s2 : MasterState := (submitTask 1 "t" "p" 5 c8s1).2

/-- After submitting the second task (priority 1): queued. -/
def c8s3 : MasterState := (submitTask 2 "t" "p" 1 c8s2).2

/-- After submitting the third task (priority 5): queued ahead of task 1. -/
def c8s4 : MasterState := (submitTask 3 "t" "p" 5 c8s3).2

/-- A COMPLETED result for task 0. -/
def c8r0 : TaskResult :=
  { taskId := 0, status := TaskStatus.COMPLETED, error := none, duration := 1 }

/-- A COMPLETED result for task 2. -/
def c8r2 : TaskResult :=
  { taskId := 2, status := TaskStatus.COMPLETED, error := none, duration := 1 }

/-- After task 0 completes: task 2 (third submitted, priority 5) is next. -/
def c8s5 : MasterState := runResult 4 c8r0 c8s4

/-- After task 2 completes: task 1 (priority 1) is assigned last. -/
def c8s6 : MasterState := runResult 5 c8r2 c8s5

/-- Heartbeat-clobber scenario: one worker, one task assigned to it. -/
def c1s2 : MasterState := (submitTask 1 "t" "p" 1 c8s1).2

/-- A heartbeat from the busy worker reporting IDLE. -/
def c1hb : Heartbeat :=
  { workerId := "w1", status := WorkerStatus.IDLE, currentTaskId := none, timestamp := 10 }

/-- After the IDLE heartbeat: the worker is IDLE again while its task is
still ASSIGNED to it. -/
def c1s3 : MasterState := runHeartbeat 10 c1hb c1s2

/-- An IDLE worker for the head-of-queue scenario. -/
def c2w : WorkerNode :=
  { id := "w1", host := "h", port := 1, status := WorkerStatus.IDLE,
    capabilities := [], lastHeartbeat := 0 }

/-- A PENDING priority-1 task sitting at the head of the queue. -/
def c2t1 : Task :=
  { id := 0, type := "t", payload := "p", priority := 1, status := TaskStatus.PENDING,
    assignedWorker := none, createdAt := 0, updatedAt := 0, retryCount := 0 }

/-- A PENDING priority-5 task sitting behind it. -/
def c2t2 : Task :=
  { id := 1, type := "t", payload := "p", priority := 5, status := TaskStatus.PENDING,
    assignedWorker := none, createdAt := 0, updatedAt := 0, retryCount := 0 }

/-- A state whose queue is not priority-ordered (as arises after a
health-sweep re-enqueue). -/
def c2state : MasterState :=
  { workers := [c2w], tasks := [c2t1, c2t2], taskQueue := [0, 1], nextId := 2 }

/-- Assignment in that state hands out the head, priority 1. -/
def c2post : MasterState := assignNextTask 7 (some "w1") c2state

/-- Ordering-violation trace: submit priority 5 (assigned), then
priority 1 (queued). -/
def c3s3 : MasterState := (submitTask 2 "t" "p" 1 c8s2).2

/-- The worker times out: task 0 (priority 5) is pushed behind task 1
(priority 1) with no re-sort. -/
def c3s4 : MasterState := healthSweep 40000 c3s3

/-- A fresh worker registers. -/
def c3s5 : MasterState := (registerWorker 40000 regW2 c3s4).2

/-- Its first IDLE heartbeat. -/
def c3hb : Heartbeat :=
  { workerId := "w2", status := WorkerStatus.IDLE, currentTaskId := none,
    timestamp := 40001 }

/-- After the heartbeat the priority-1 task is dequeued while the
priority-5 task is still PENDING. -/
def c3s6 : MasterState := runHeartbeat 40001 c3hb c3s5

/-- A BUSY worker whose last heartbeat is stale. -/
def c4worker : WorkerNode :=
  { id := "w1", host := "h", port := 1, status := WorkerStatus.BUSY,
    capabilities := [], lastHeartbeat := 0 }

/-- Its single ASSIGNED task, carrying a declared retry budget of 3. -/
def c4task : Task :=
  { id := 0, type := "t", payload := "p", priority := 5, status := TaskStatus.ASSIGNED,
    assignedWorker := some "w1", createdAt := 0, updatedAt := 0, retryCount := 3 }

/-- Worker-timeout scenario state. -/
def c4state : MasterState :=
  { workers := [c4worker], tasks := [c4task], taskQueue := [], nextId := 1 }

/-- The state after a health sweep at time 40000. -/
def c4post : MasterState := healthSweep 40000 c4state

/-- A BUSY worker holding a task with retry budget 2. -/
def c5worker : WorkerNode :=
  { id := "w1", host := "h", port := 1, status := WorkerStatus.BUSY,
    capabilities := [], lastHeartbeat := 40 }

/-- The ASSIGNED task with a positive declared retry budget. -/
def c5task : Task :=
  { id := 0, type := "t", payload := "p", priority := 2, status := TaskStatus.ASSIGNED,
    assignedWorker := some "w1", createdAt := 0, updatedAt := 0, retryCount := 2 }

/-- Failure-result scenario state. -/
def c5state : MasterState :=
  { workers := [c5worker], tasks := [c5task], taskQueue := [], nextId := 1 }

/-- The FAILED result reported for the task. -/
def c5res : TaskResult :=
  { taskId := 0, status := TaskStatus.FAILED, error := some "boom", duration := 1 }

/-- The state after processing the failure. -/
def c5post : MasterState := runResult 50 c5res c5state

/-- A live (BUSY, recently heartbeating) worker under id "w1". -/
def c6worker : WorkerNode :=
  { id := "w1", host := "h", port := 1, status := WorkerStatus.BUSY,
    capabilities := [], lastHeartbeat := 5 }

/-- Duplicate-registration scenario state. -/
def c6state : MasterState :=
  { workers := [c6worker], tasks := [], taskQueue := [], nextId := 0 }

/-- Re-registering the live id "w1" succeeds and overwrites the record. -/
def c6post : MasterState := (registerWorker 99 regW1 c6state).2

/-- Submitting with a negative priority: accepted without validation. -/
def c9pair : Nat × MasterState := submitTask 3 "perf" "payload" (-5) initialState

/-! ### Lookup and update lemmas for the association-list maps -/

theorem findTask_some {ts : List Task} {tid : Nat} {t : Task}
    (h : findTask ts tid = some t) : t.id = tid ∧ t ∈ ts := by
  induction ts with
  | nil => simp [findTask] at h
  | cons x ts ih =>
    by_cases hx : x.id = tid
    · simp only [findTask, if_pos hx, Option.some.injEq] at h
      subst h
      exact ⟨hx, List.mem_cons_self _ _⟩
    · simp only [findTask, if_neg hx] at h
      exact ⟨(ih h).1, List.mem_cons_of_mem _ (ih h).2⟩

theorem findTask_isSome_of_mem {ts : List Task} {t : Task} (h : t ∈ ts) :
    (findTask ts t.id).isSome := by
  induction ts with
  | nil => cases h
  | cons x ts ih =>
    by_cases hx : x.id = t.id
    · simp [findTask, hx]
    · cases h with
      | head => exact absurd rfl hx
      | tail _ h' => simpa [findTask, hx] using ih h'

theorem findTask_map {ts : List Task} {f : Task → Task} (hf : ∀ t, (f t).id = t.id)
    (tid : Nat) : findTask (ts.map f) tid = (findTask ts tid).map f := by
  induction ts with
  | nil => rfl
  | cons x ts ih =>
    by_cases hx : x.id = tid
    · simp [findTask, hf, hx]
    · simp [findTask, hf, hx, ih]

theorem findTask_append_left {ts ts' : List Task} {tid : Nat} {t : Task}
    (h : findTask ts tid = some t) : findTask (ts ++ ts') tid = some t := by
  induction ts with
  | nil => simp [findTask] at h
  | cons x ts ih =>
    by_cases hx : x.id = tid
    · simp only [findTask, if_pos hx, Option.some.injEq] at h
      subst h
      simp [findTask, hx]
    · simp only [findTask, if_neg hx] at h
      simpa [findTask, hx] using ih h

theorem findTask_append_right {ts ts' : List Task} {tid : Nat}
    (h : findTask ts tid = none) : findTask (ts ++ ts') tid = findTask ts' tid := by
  induction ts with
  | nil => rfl
  | cons x ts ih =>
    by_cases hx : x.id = tid
    · simp [findTask, hx] at h
    · simp only [findTask, if_neg hx] at h
      simpa [findTask, hx] using ih h

theorem findTask_eq_none {ts : List Task} {tid : Nat}
    (h : ∀ t ∈ ts, t.id ≠ tid) : findTask ts tid = none := by
  induction ts with
  | nil => rfl
  | cons x ts ih =>
    have hx : x.id ≠ tid := h x (List.mem_cons_self _ _)
    simpa [findTask, hx] using ih fun t ht => h t (List.mem_cons_of_mem _ ht)

theorem findTask_updateTask_self {ts : List Task} {tid : Nat} {f : Task → Task}
    (hf : ∀ t, (f t).id = t.id) :
    findTask (updateTask ts tid f) tid = (findTask ts tid).map f := by
  have hg : ∀ t, ((fun t => if t.id = tid then f t else t) t).id = t.id := by
    intro t; by_cases h : t.id = tid <;> simp [h, hf]
  rw [updateTask, findTask_map hg]
  cases hfind : findTask ts tid with
  | none => rfl
  | some t => simp [(findTask_some hfind).1]

theorem findTask_updateTask_ne {ts : List Task} {tid tid' : Nat} {f : Task → Task}
    (hf : ∀ t, (f t).id = t.id) (hne : tid' ≠ tid) :
    findTask (updateTask ts tid f) tid' = findTask ts tid' := by
  have hg : ∀ t, ((fun t => if t.id = tid then f t else t) t).id = t.id := by
    intro t; by_cases h : t.id = tid <;> simp [h, hf]
  rw [updateTask, findTask_map hg]
  cases hfind : findTask ts tid' with
  | none => rfl
  | some t =>
    have : t.id = tid' := (findTask_some hfind).1
    simp [this, hne]

theorem findWorker_some {ws : List WorkerNode} {wid : String} {w : WorkerNode}
    (h : findWorker ws wid = some w) : w.id = wid ∧ w ∈ ws := by
  induction ws with
  | nil => simp [findWorker] at h
  | cons x ws ih =>
    by_cases hx : x.id = wid
    · simp only [findWorker, if_pos hx, Option.some.injEq] at h
      subst h
      exact ⟨hx, List.mem_cons_self _ _⟩
    · simp only [findWorker, if_neg hx] at h
      exact ⟨(ih h).1, List.mem_cons_of_mem _ (ih h).2⟩

theorem findWorker_isSome_of_mem {ws : List WorkerNode} {w : WorkerNode} (h : w ∈ ws) :
    (findWorker ws w.id).isSome := by
  induction ws with
  | nil => cases h
  | cons x ws ih =>
    by_cases hx : x.id = w.id
    · simp [findWorker, hx]
    · cases h with
      | head => exact absurd rfl hx
      | tail _ h' => simpa [findWorker, hx] using ih h'

theorem findWorker_map {ws : List WorkerNode} {f : WorkerNode → WorkerNode}
    (hf : ∀ w, (f w).id = w.id) (wid : String) :
    findWorker (ws.map f) wid = (findWorker ws wid).map f := by
  induction ws with
  | nil => rfl
  | cons x ws ih =>
    by_cases hx : x.id = wid
    · simp [findWorker, hf, hx]
    · simp [findWorker, hf, hx, ih]

theorem findWorker_updateWorker_self {ws : List WorkerNode} {wid : String}
    {f : WorkerNode → WorkerNode} (hf : ∀ w, (f w).id = w.id) :
    findWorker (updateWorker ws wid f) wid = (findWorker ws wid).map f := by
  have hg : ∀ w, ((fun w => if w.id = wid then f w else w) w).id = w.id := by
    intro w; by_cases h : w.id = wid <;> simp [h, hf]
  rw [updateWorker, findWorker_map hg]
  cases hfind : findWorker ws wid with
  | none => rfl
  | some w => simp [(findWorker_some hfind).1]

theorem findWorker_updateWorker_ne {ws : List WorkerNode} {wid wid' : String}
    {f : WorkerNode → WorkerNode} (hf : ∀ w, (f w).id = w.id) (hne : wid' ≠ wid) :
    findWorker (updateWorker ws wid f) wid' = findWorker ws wid' := by
  have hg : ∀ w, ((fun w => if w.id = wid then f w else w) w).id = w.id := by
    intro w; by_cases h : w.id = wid <;> simp [h, hf]
  rw [updateWorker, findWorker_map hg]
  cases hfind : findWorker ws wid' with
  | none => rfl
  | some w =>
    have : w.id = wid' := (findWorker_some hfind).1
    simp [this, hne]

theorem findWorker_setWorker_self (ws : List WorkerNode) (w : WorkerNode) :
    findWorker (setWorker ws w) w.id = some w := by
  induction ws with
  | nil => simp [setWorker, findWorker]
  | cons x ws ih =>
    by_cases hx : x.id = w.id
    · simp [setWorker, hx, findWorker]
    · simpa [setWorker, hx, findWorker] using ih

theorem findWorker_setWorker_ne {ws : List WorkerNode} {w : WorkerNode} {wid : String}
    (hne : wid ≠ w.id) : findWorker (setWorker ws w) wid = findWorker ws wid := by
  induction ws with
  | nil =>
    simp only [setWorker, findWorker]
    rw [if_neg (Ne.symm hne)]
  | cons x ws ih =>
    by_cases hx : x.id = w.id
    · simp only [setWorker, if_pos hx, findWorker]
      rw [if_neg (Ne.symm hne), if_neg (by rw [hx]; exact Ne.symm hne)]
    · simp only [setWorker, if_neg hx, findWorker, ih]

theorem findWorker_setWorker_isSome {ws : List WorkerNode} {w : WorkerNode} {wid : String}
    (h : (findWorker ws wid).isSome) : (findWorker (setWorker ws w) wid).isSome := by
  by_cases hw : wid = w.id
  · subst hw; rw [findWorker_setWorker_self]; rfl
  · rwa [findWorker_setWorker_ne hw]

theorem mem_setWorker {ws : List WorkerNode} {w x : WorkerNode}
    (h : x ∈ setWorker ws w) : x = w ∨ x ∈ ws := by
  induction ws with
  | nil => simpa [setWorker] using h
  | cons y ws ih =>
    by_cases hy : y.id = w.id
    · simp only [setWorker, if_pos hy] at h
      rcases List.mem_cons.mp h with h | h
      · exact Or.inl h
      · exact Or.inr (List.mem_cons_of_mem _ h)
    · simp only [setWorker, if_neg hy] at h
      rcases List.mem_cons.mp h with h | h
      · exact Or.inr (h ▸ List.mem_cons_self _ _)
      · rcases ih h with h | h
        · exact Or.inl h
        · exact Or.inr (List.mem_cons_of_mem _ h)

theorem findTask_setTask_self (ts : List Task) (t : Task) :
    findTask (setTask ts t) t.id = some t := by
  induction ts with
  | nil => simp [setTask, findTask]
  | cons x ts ih =>
    by_cases hx : x.id = t.id
    · simp [setTask, hx, findTask]
    · simpa [setTask, hx, findTask] using ih

theorem setTask_of_fresh {ts : List Task} {t : Task}
    (h : ∀ x ∈ ts, x.id ≠ t.id) : setTask ts t = ts ++ [t] := by
  induction ts with
  | nil => rfl
  | cons x ts ih =>
    have hx : x.id ≠ t.id := h x (List.mem_cons_self _ _)
    simp [setTask, hx, ih fun y hy => h y (List.mem_cons_of_mem _ hy)]

theorem findIdle_mem {ws : List WorkerNode} {w : WorkerNode}
    (h : findIdle ws = some w) : w ∈ ws := by
  induction ws with
  | nil => simp [findIdle] at h
  | cons x ws ih =>
    by_cases hx : x.status.isIdle
    · simp only [findIdle, if_pos hx, Option.some.injEq] at h
      exact h ▸ List.mem_cons_self _ _
    · simp only [findIdle, if_neg hx] at h
      exact List.mem_cons_of_mem _ (ih h)

theorem findIdle_isIdle {ws : List WorkerNode} {w : WorkerNode}
    (h : findIdle ws = some w) : w.status.isIdle = true := by
  induction ws with
  | nil => simp [findIdle] at h
  | cons x ws ih =>
    by_cases hx : x.status.isIdle
    · simp only [findIdle, if_pos hx, Option.some.injEq] at h
      exact h ▸ hx
    · simp only [findIdle, if_neg hx] at h
      exact ih h

theorem sweepHit_iff {wid : String} {t : Task} :
    sweepHit wid t = true ↔ t.assignedWorker = some wid ∧ t.status.isActive = true := by
  simp [sweepHit, Bool.and_eq_true]

theorem map_id_of_preserving {ts : List Task} {g : Task → Task}
    (hg : ∀ t, (g t).id = t.id) : (ts.map g).map Task.id = ts.map Task.id := by
  induction ts with
  | nil => rfl
  | cons x ts ih => simp [hg, ih]

theorem eq_of_nodup_ids {ts : List Task} (hn : (ts.map Task.id).Nodup) {a b : Task}
    (ha : a ∈ ts) (hb : b ∈ ts) (hid : a.id = b.id) : a = b :=
  List.inj_on_of_nodup_map hn ha hb hid

theorem map_id_updateTask {ts : List Task} {tid : Nat} {f : Task → Task}
    (hf : ∀ t, (f t).id = t.id) :
    (updateTask ts tid f).map Task.id = ts.map Task.id := by
  rw [updateTask]
  apply map_id_of_preserving
  intro t
  by_cases hc : t.id = tid <;> simp [hc, hf]

/-! ### Queue-sort lemmas: permutation, membership, stability ordering -/

theorem mem_insertQ {p : Nat → Int} {x a : Nat} {l : List Nat} :
    a ∈ insertQ p x l ↔ a = x ∨ a ∈ l := by
  induction l with
  | nil => simp [insertQ]
  | cons y ys ih =>
    by_cases h : p y ≤ p x
    · simp [insertQ, h]
    · simp only [insertQ, if_neg h, List.mem_cons, ih]
      tauto

theorem perm_insertQ (p : Nat → Int) (x : Nat) (l : List Nat) :
    List.Perm (insertQ p x l) (x :: l) := by
  induction l with
  | nil => simp [insertQ]
  | cons y ys ih =>
    by_cases h : p y ≤ p x
    · simp [insertQ, h]
    · simp only [insertQ, if_neg h]
      exact (ih.cons y).trans (List.Perm.swap x y ys)

theorem perm_sortQ (p : Nat → Int) (l : List Nat) : List.Perm (sortQ p l) l := by
  induction l with
  | nil => rfl
  | cons x xs ih => exact (perm_insertQ p x (sortQ p xs)).trans (ih.cons x)

theorem mem_sortQ {p : Nat → Int} {l : List Nat} {a : Nat} :
    a ∈ sortQ p l ↔ a ∈ l :=
  (perm_sortQ p l).mem_iff

theorem nodup_sortQ {p : Nat → Int} {l : List Nat} (h : l.Nodup) :
    (sortQ p l).Nodup :=
  ((perm_sortQ p l).nodup_iff).mpr h

theorem pairwise_insertQ {p : Nat → Int} {x : Nat} {l : List Nat}
    (hl : l.Pairwise fun a b => p b < p a ∨ (p a = p b ∧ a < b))
    (hx : ∀ b ∈ l, p b = p x → x < b) :
    (insertQ p x l).Pairwise fun a b => p b < p a ∨ (p a = p b ∧ a < b) := by
  induction l with
  | nil => simp [insertQ]
  | cons y ys ih =>
    rcases List.pairwise_cons.mp hl with ⟨hy, hys⟩
    by_cases h : p y ≤ p x
    · simp only [insertQ, if_pos h]
      refine List.pairwise_cons.mpr ⟨?_, hl⟩
      intro b hb
      rcases List.mem_cons.mp hb with hb | hb
      · subst hb
        rcases lt_or_eq_of_le h with hlt | heq
        · exact Or.inl hlt
        · exact Or.inr ⟨heq.symm, hx b (List.mem_cons_self _ _) heq⟩
      · rcases hy b hb with hby | ⟨heq, _⟩
        · exact Or.inl (lt_of_lt_of_le hby h)
        · rcases lt_or_eq_of_le (heq ▸ h : p b ≤ p x) with hlt | heq'
          · exact Or.inl hlt
          · exact Or.inr ⟨heq'.symm, hx b (List.mem_cons_of_mem _ hb) heq'⟩
    · simp only [insertQ, if_neg h]
      refine List.pairwise_cons.mpr ⟨?_, ih hys fun b hb hpb => hx b (List.mem_cons_of_mem _ hb) hpb⟩
      intro b hb
      rcases mem_insertQ.mp hb with hb | hb
      · subst hb
        exact Or.inl (lt_of_not_le h)
      · exact hy b hb

theorem pairwise_sortQ {p : Nat → Int} {l : List Nat}
    (h : l.Pairwise fun a b => p a = p b → a < b) :
    (sortQ p l).Pairwise fun a b => p b < p a ∨ (p a = p b ∧ a < b) := by
  induction l with
  | nil => simp [sortQ]
  | cons x xs ih =>
    rcases List.pairwise_cons.mp h with ⟨hx, hxs⟩
    exact pairwise_insertQ (ih hxs) fun b hb hpb => hx b (mem_sortQ.mp hb) hpb.symm

/-! ### The coordinator's structural invariant and its preservation -/

theorem isSome_map_opt {α β : Type} (f : α → β) (o : Option α) :
    (o.map f).isSome = o.isSome := by
  cases o <;> rfl

theorem markAssigned_id (now : Nat) (wid : String) :
    ∀ t : Task, (markAssigned now wid t).id = t.id := fun _ => rfl

theorem markAssigned_priority (now : Nat) (wid : String) :
    ∀ t : Task, (markAssigned now wid t).priority = t.priority := fun _ => rfl

theorem markBusy_id : ∀ x : WorkerNode, (markBusy x).id = x.id := fun _ => rfl

theorem applyHeartbeat_id (hb : Heartbeat) :
    ∀ x : WorkerNode, (applyHeartbeat hb x).id = x.id := fun _ => rfl

theorem applyResultStatus_id (now : Nat) (st : TaskStatus) :
    ∀ x : Task, (applyResultStatus now st x).id = x.id := fun _ => rfl

theorem applyResultStatus_assigned (now : Nat) (st : TaskStatus) :
    ∀ x : Task, (applyResultStatus now st x).assignedWorker = x.assignedWorker :=
  fun _ => rfl

theorem applyResultStatus_priority (now : Nat) (st : TaskStatus) :
    ∀ x : Task, (applyResultStatus now st x).priority = x.priority := fun _ => rfl

theorem markIdle_id : ∀ x : WorkerNode, (markIdle x).id = x.id := fun _ => rfl

theorem markOffline_id : ∀ x : WorkerNode, (markOffline x).id = x.id := fun _ => rfl

theorem sweepClear_id : ∀ t : Task, (sweepClear t).id = t.id := fun _ => rfl

/-- Structural invariant of reachable `MasterNode` states: the queue has
no duplicate ids, every queued id is a live task-map key, a task recorded
as assigned to some worker is never simultaneously queued, task ids stay
below the fresh counter, the task map has unique keys, and every
`assignedWorker` value is a registered worker id. -/
structure Inv (s : MasterState) : Prop where
  nodupQueue : s.taskQueue.Nodup
  queueInTasks : ∀ tid ∈ s.taskQueue, (findTask s.tasks tid).isSome
  assignedNotQueued : ∀ t ∈ s.tasks, t.assignedWorker.isSome → t.id ∉ s.taskQueue
  idsLtNext : ∀ t ∈ s.tasks, t.id < s.nextId
  nodupTasks : (s.tasks.map Task.id).Nodup
  assignedRegistered : ∀ t ∈ s.tasks, ∀ wid, t.assignedWorker = some wid →
    (findWorker s.workers wid).isSome

theorem Inv.queueLt {s : MasterState} (h : Inv s) :
    ∀ tid ∈ s.taskQueue, tid < s.nextId := by
  intro tid hmem
  rcases Option.isSome_iff_exists.mp (h.queueInTasks tid hmem) with ⟨t, ht⟩
  rcases findTask_some ht with ⟨hid, hmem'⟩
  exact hid ▸ h.idsLtNext t hmem'

theorem inv_initialState : Inv initialState := by
  refine ⟨?_, ?_, ?_, ?_, ?_, ?_⟩ <;> simp [initialState]

theorem resolveWorker_isSome {chosen : Option String} {s : MasterState} {w : WorkerNode}
    (h : resolveWorker chosen s = some w) : (findWorker s.workers w.id).isSome := by
  cases chosen with
  | some wid =>
    have h' : findWorker s.workers wid = some w := h
    rw [(findWorker_some h').1]
    simp [h']
  | none => exact findWorker_isSome_of_mem (findIdle_mem h)

theorem inv_updateWorkers {s : MasterState} {wid : String} {f : WorkerNode → WorkerNode}
    (hf : ∀ w, (f w).id = w.id) (h : Inv s) :
    Inv { s with workers := updateWorker s.workers wid f } := by
  refine ⟨h.nodupQueue, h.queueInTasks, h.assignedNotQueued, h.idsLtNext, h.nodupTasks, ?_⟩
  intro t ht wid' hw
  by_cases hww : wid' = wid
  · subst hww
    rw [findWorker_updateWorker_self hf, isSome_map_opt]
    exact h.assignedRegistered t ht wid' hw
  · rw [findWorker_updateWorker_ne hf hww]
    exact h.assignedRegistered t ht wid' hw

theorem inv_assignTo {s : MasterState} {now : Nat} {w : WorkerNode}
    (hw : (findWorker s.workers w.id).isSome) (h : Inv s) : Inv (assignTo now w s) := by
  unfold assignTo
  split
  · split
    · exact h
    · rename_i tid rest heq
      have hnodup := heq ▸ h.nodupQueue
      have htidrest : tid ∉ rest := (List.nodup_cons.mp hnodup).1
      have hrest : rest.Nodup := (List.nodup_cons.mp hnodup).2
      have hsub : ∀ x ∈ rest, x ∈ s.taskQueue := by
        intro x hx; rw [heq]; exact List.mem_cons_of_mem _ hx
      split
      · exact ⟨hrest, fun tid' h' => h.queueInTasks tid' (hsub tid' h'),
          fun t ht hs hmem => h.assignedNotQueued t ht hs (hsub _ hmem),
          h.idsLtNext, h.nodupTasks, h.assignedRegistered⟩
      · rename_i t0 hfind
        refine ⟨hrest, ?_, ?_, ?_, ?_, ?_⟩
        · intro tid' h'
          by_cases hc : tid' = tid
          · subst hc
            rw [findTask_updateTask_self (markAssigned_id now w.id), isSome_map_opt]
            exact h.queueInTasks tid' (hsub tid' h')
          · rw [findTask_updateTask_ne (markAssigned_id now w.id) hc]
            exact h.queueInTasks tid' (hsub tid' h')
        · intro t ht hs
          rcases List.mem_map.mp ht with ⟨u, hu, rfl⟩
          by_cases hc : u.id = tid
          · simpa [hc, markAssigned] using htidrest
          · simp only [if_neg hc]
            exact fun hmem =>
              h.assignedNotQueued u hu (by simpa [hc] using hs) (hsub _ (by simpa [hc] using hmem))
        · intro t ht
          rcases List.mem_map.mp ht with ⟨u, hu, rfl⟩
          have hlt := h.idsLtNext u hu
          by_cases hc : u.id = tid <;> simp [hc, markAssigned] <;> omega
        · show ((updateTask s.tasks tid _).map Task.id).Nodup
          rw [map_id_updateTask (markAssigned_id now w.id)]
          exact h.nodupTasks
        · intro t ht wid' hws
          rcases List.mem_map.mp ht with ⟨u, hu, rfl⟩
          have hreg : (findWorker s.workers wid').isSome := by
            by_cases hc : u.id = tid
            · have hww' : w.id = wid' := by simpa [hc, markAssigned] using hws
              exact hww' ▸ hw
            · exact h.assignedRegistered u hu wid' (by simpa [hc] using hws)
          by_cases hww : wid' = w.id
          · subst hww
            rw [findWorker_updateWorker_self markBusy_id, isSome_map_opt]
            exact hreg
          · rw [findWorker_updateWorker_ne markBusy_id hww]
            exact hreg
  · exact h

theorem inv_assignNextTask {s : MasterState} {now : Nat} {chosen : Option String}
    (h : Inv s) : Inv (assignNextTask now chosen s) := by
  unfold assignNextTask
  cases hres : resolveWorker chosen s with
  | none => exact h
  | some w => exact inv_assignTo (resolveWorker_isSome hres) h

theorem inv_registerWorker {s : MasterState} {now : Nat} {reg : WorkerRegistration}
    (h : Inv s) : Inv (registerWorker now reg s).2 := by
  refine ⟨h.nodupQueue, h.queueInTasks, h.assignedNotQueued, h.idsLtNext, h.nodupTasks, ?_⟩
  intro t ht wid hw
  exact findWorker_setWorker_isSome (h.assignedRegistered t ht wid hw)

theorem inv_updateTaskKeep {s : MasterState} {tid : Nat} {f : Task → Task}
    (hf : ∀ t, (f t).id = t.id) (ha : ∀ t, (f t).assignedWorker = t.assignedWorker)
    (h : Inv s) : Inv { s with tasks := updateTask s.tasks tid f } := by
  refine ⟨h.nodupQueue, ?_, ?_, ?_, ?_, ?_⟩
  · intro tid' h'
    by_cases hc : tid' = tid
    · subst hc
      rw [findTask_updateTask_self hf, isSome_map_opt]
      exact h.queueInTasks tid' h'
    · rw [findTask_updateTask_ne hf hc]
      exact h.queueInTasks tid' h'
  · intro t ht hs
    rcases List.mem_map.mp ht with ⟨u, hu, rfl⟩
    by_cases hc : u.id = tid
    · simp only [if_pos hc] at hs ⊢
      rw [hf, hc]
      rw [ha] at hs
      exact hc ▸ h.assignedNotQueued u hu hs
    · simp only [if_neg hc] at hs ⊢
      exact h.assignedNotQueued u hu hs
  · intro t ht
    rcases List.mem_map.mp ht with ⟨u, hu, rfl⟩
    have hlt := h.idsLtNext u hu
    by_cases hc : u.id = tid <;> simp [hc, hf] <;> omega
  · show ((updateTask s.tasks tid f).map Task.id).Nodup
    rw [map_id_updateTask hf]
    exact h.nodupTasks
  · intro t ht wid hws
    rcases List.mem_map.mp ht with ⟨u, hu, rfl⟩
    by_cases hc : u.id = tid
    · simp only [if_pos hc, ha] at hws
      exact h.assignedRegistered u hu wid hws
    · simp only [if_neg hc] at hws
      exact h.assignedRegistered u hu wid hws

theorem inv_processHeartbeat {s s' : MasterState} {now : Nat} {hb : Heartbeat}
    (h : Inv s) (hok : processHeartbeat now hb s = Except.ok s') : Inv s' := by
  unfold processHeartbeat at hok
  cases hfw : lookupWorker s hb.workerId with
  | none => rw [hfw] at hok; cases hok
  | some w =>
    rw [hfw] at hok
    simp only at hok
    have hbase : Inv { s with workers := updateWorker s.workers w.id (applyHeartbeat hb) } :=
      inv_updateWorkers (applyHeartbeat_id hb) h
    by_cases hst : hb.status = WorkerStatus.IDLE
    · rw [if_pos hst, Except.ok.injEq] at hok
      exact hok ▸ inv_assignNextTask hbase
    · rw [if_neg hst, Except.ok.injEq] at hok
      exact hok ▸ hbase

theorem inv_processTaskResult {s s' : MasterState} {now : Nat} {r : TaskResult}
    (h : Inv s) (hok : processTaskResult now r s = Except.ok s') : Inv s' := by
  unfold processTaskResult at hok
  cases hft : lookupTask s r.taskId with
  | none => rw [hft] at hok; cases hok
  | some t =>
    rw [hft] at hok
    simp only at hok
    have hbase : Inv { s with tasks := updateTask s.tasks t.id (applyResultStatus now r.status) } :=
      inv_updateTaskKeep (applyResultStatus_id now r.status)
        (applyResultStatus_assigned now r.status) h
    by_cases hfin : r.status.isFinished
    · rw [if_pos hfin] at hok
      split at hok
      · rw [Except.ok.injEq] at hok
        exact hok ▸ hbase
      · split at hok
        · rw [Except.ok.injEq] at hok
          exact hok ▸ hbase
        · rw [Except.ok.injEq] at hok
          exact hok ▸ inv_assignNextTask (inv_updateWorkers markIdle_id hbase)
    · rw [if_neg hfin, Except.ok.injEq] at hok
      exact hok ▸ hbase

theorem inv_applyOffline {s : MasterState} {wid : String} (h : Inv s) :
    Inv (applyOffline wid s) := by
  have hg : ∀ t : Task,
      ((fun t => if sweepHit wid t then sweepClear t else t) t).id = t.id := by
    intro t; by_cases hc : sweepHit wid t <;> simp [hc, sweepClear]
  have hpushed_sub :
      (((s.tasks.filter (sweepHit wid)).map Task.id)).Sublist (s.tasks.map Task.id) :=
    (List.filter_sublist _).map Task.id
  refine ⟨?_, ?_, ?_, ?_, ?_, ?_⟩
  · refine List.Nodup.append h.nodupQueue (h.nodupTasks.sublist hpushed_sub) ?_
    intro tid hq hp
    rcases List.mem_map.mp hp with ⟨t, htf, rfl⟩
    have htm := List.mem_of_mem_filter htf
    have hhit := List.of_mem_filter htf
    have hsw : t.assignedWorker.isSome := by
      rcases sweepHit_iff.mp hhit with ⟨haw, _⟩
      simp [haw]
    exact h.assignedNotQueued t htm hsw hq
  · intro tid' hmem
    rcases List.mem_append.mp hmem with hq | hp
    · show (findTask (s.tasks.map _) tid').isSome
      rw [findTask_map hg, isSome_map_opt]
      exact h.queueInTasks tid' hq
    · rcases List.mem_map.mp hp with ⟨t, htf, rfl⟩
      show (findTask (s.tasks.map _) t.id).isSome
      rw [findTask_map hg, isSome_map_opt]
      exact findTask_isSome_of_mem (List.mem_of_mem_filter htf)
  · intro t ht hs
    rcases List.mem_map.mp ht with ⟨u, hu, rfl⟩
    by_cases hc : sweepHit wid u
    · simp [hc, sweepClear] at hs
    · simp only [if_neg hc] at hs ⊢
      intro hmem
      rcases List.mem_append.mp hmem with hq | hp
      · exact h.assignedNotQueued u hu hs hq
      · rcases List.mem_map.mp hp with ⟨v, hvf, hvid⟩
        have hvm := List.mem_of_mem_filter hvf
        have : u = v := eq_of_nodup_ids h.nodupTasks hu hvm hvid.symm
        exact hc (this ▸ List.of_mem_filter hvf)
  · intro t ht
    rcases List.mem_map.mp ht with ⟨u, hu, rfl⟩
    have hlt := h.idsLtNext u hu
    by_cases hc : sweepHit wid u <;> simp [hc, sweepClear, applyOffline] <;> omega
  · show ((s.tasks.map _).map Task.id).Nodup
    rw [map_id_of_preserving hg]
    exact h.nodupTasks
  · intro t ht wid' hws
    rcases List.mem_map.mp ht with ⟨u, hu, rfl⟩
    by_cases hc : sweepHit wid u
    · simp [hc, sweepClear] at hws
    · simp only [if_neg hc] at hws
      have hreg := h.assignedRegistered u hu wid' hws
      by_cases hww : wid' = wid
      · subst hww
        show (findWorker (updateWorker s.workers wid' markOffline) wid').isSome = true
        rw [findWorker_updateWorker_self markOffline_id, isSome_map_opt]
        exact hreg
      · show (findWorker (updateWorker s.workers wid markOffline) wid').isSome = true
        rw [findWorker_updateWorker_ne markOffline_id hww]
        exact hreg

theorem inv_sweepGo {now : Nat} : ∀ (ws : List WorkerNode) (s : MasterState),
    Inv s → Inv (sweepGo now ws s)
  | [], _, h => h
  | w :: ws, s, h => by
    unfold sweepGo
    by_cases hc : 30000 < now - w.lastHeartbeat
    · rw [if_pos hc]
      exact inv_sweepGo ws _ (inv_applyOffline h)
    · rw [if_neg hc]
      exact inv_sweepGo ws _ h

theorem inv_healthSweep {s : MasterState} {now : Nat} (h : Inv s) :
    Inv (healthSweep now s) :=
  inv_sweepGo s.workers s h

theorem inv_submitState {s : MasterState} {now : Nat} {taskType payload : String}
    {priority : Int} (h : Inv s) : Inv (submitState now taskType payload priority s) := by
  unfold submitState newTaskOf
  simp only
  set newTask : Task :=
    { id := s.nextId, type := taskType, payload := payload, priority := priority,
      status := TaskStatus.PENDING, assignedWorker := none,
      createdAt := now, updatedAt := now, retryCount := 0 } with hnew
  have hfresh : ∀ x ∈ s.tasks, x.id ≠ newTask.id := by
    intro x hx
    exact Nat.ne_of_lt (h.idsLtNext x hx)
  have hset : setTask s.tasks newTask = s.tasks ++ [newTask] := setTask_of_fresh hfresh
  rw [hset]
  have hqlt := h.queueLt
  refine ⟨?_, ?_, ?_, ?_, ?_, ?_⟩
  · apply nodup_sortQ
    refine List.Nodup.append h.nodupQueue (List.nodup_singleton _) ?_
    intro tid hq hm
    rw [List.mem_singleton] at hm
    exact absurd (hm ▸ hqlt tid hq) (lt_irrefl _)
  · intro tid' hmem
    rcases List.mem_append.mp (mem_sortQ.mp hmem) with hq | hm
    · rcases Option.isSome_iff_exists.mp (h.queueInTasks tid' hq) with ⟨t, ht⟩
      rw [findTask_append_left ht]
      rfl
    · rw [List.mem_singleton] at hm
      subst hm
      rw [findTask_append_right (findTask_eq_none fun t ht => Nat.ne_of_lt (h.idsLtNext t ht))]
      simp [findTask]
  · intro t ht hs
    rcases List.mem_append.mp ht with htold | htnew
    · intro hmem
      rcases List.mem_append.mp (mem_sortQ.mp hmem) with hq | hm
      · exact h.assignedNotQueued t htold hs hq
      · rw [List.mem_singleton] at hm
        exact absurd (hm ▸ h.idsLtNext t htold) (lt_irrefl _)
    · rw [List.mem_singleton] at htnew
      subst htnew
      simp at hs
  · intro t ht
    rcases List.mem_append.mp ht with htold | htnew
    · exact Nat.lt_succ_of_lt (h.idsLtNext t htold)
    · rw [List.mem_singleton] at htnew
      subst htnew
      exact Nat.lt_succ_self _
  · rw [List.map_append]
    refine List.Nodup.append h.nodupTasks (List.nodup_singleton _) ?_
    intro i hi hm
    rcases List.mem_map.mp hi with ⟨t, ht, rfl⟩
    rw [List.map_singleton, List.mem_singleton] at hm
    exact absurd (hm ▸ h.idsLtNext t ht) (lt_irrefl _)
  · intro t ht wid hws
    rcases List.mem_append.mp ht with htold | htnew
    · exact h.assignedRegistered t htold wid hws
    · rw [List.mem_singleton] at htnew
      subst htnew
      simp at hws

theorem inv_submitTask {s : MasterState} {now : Nat} {taskType payload : String}
    {priority : Int} (h : Inv s) : Inv (submitTask now taskType payload priority s).2 :=
  inv_assignNextTask (inv_submitState h)

theorem inv_step {s s' : MasterState} (h : Inv s) (hs : Step s s') : Inv s' := by
  cases hs with
  | register now reg => exact inv_registerWorker h
  | heartbeat s2 now hb hok => exact inv_processHeartbeat h hok
  | submit now taskType payload priority => exact inv_submitTask h
  | result s2 now r hok => exact inv_processTaskResult h hok
  | sweep now => exact inv_healthSweep h

theorem inv_reachable {s : MasterState} (h : Reachable s) : Inv s := by
  induction h with
  | init => exact inv_initialState
  | step s s' _ hstep ih => exact inv_step ih hstep

/-! ### Queue ordering invariant in the absence of health sweeps -/

theorem prio_updateTask {ts : List Task} {tid : Nat} {f : Task → Task}
    (hf : ∀ t, (f t).id = t.id) (hp : ∀ t, (f t).priority = t.priority) (tid' : Nat) :
    prioOf (updateTask ts tid f) tid' = prioOf ts tid' := by
  unfold prioOf
  by_cases hc : tid' = tid
  · subst hc
    rw [findTask_updateTask_self hf]
    cases findTask ts tid' <;> simp [hp]
  · rw [findTask_updateTask_ne hf hc]

theorem prio_append_fresh {ts : List Task} {new : Task} {tid : Nat} (hne : tid ≠ new.id) :
    prioOf (ts ++ [new]) tid = prioOf ts tid := by
  unfold prioOf
  cases hft : findTask ts tid with
  | some t => rw [findTask_append_left hft]
  | none =>
    rw [findTask_append_right hft]
    have hne' : new.id ≠ tid := fun h => hne h.symm
    simp [findTask, hne', hft]

/-- Invariant of sweep-free executions: every queued id is below the fresh
counter (ids record submission order), and the queue is strictly ordered
by priority descending with ties broken by submission order (smaller id,
i.e. earlier submission, first). -/
structure InvNS (s : MasterState) : Prop where
  queueLtNext : ∀ tid ∈ s.taskQueue, tid < s.nextId
  ordered : s.taskQueue.Pairwise fun a b =>
    prio s b < prio s a ∨ (prio s a = prio s b ∧ a < b)

theorem invNS_initialState : InvNS initialState := by
  refine ⟨?_, ?_⟩ <;> simp [initialState]

theorem invNS_assignTo {s : MasterState} {now : Nat} {w : WorkerNode}
    (h : InvNS s) : InvNS (assignTo now w s) := by
  unfold assignTo
  split
  · split
    · exact h
    · rename_i tid rest heq
      have hordered := heq ▸ h.ordered
      have htail := (List.pairwise_cons.mp hordered).2
      have hlt : ∀ x ∈ rest, x < s.nextId := fun x hx =>
        h.queueLtNext x (heq ▸ List.mem_cons_of_mem _ hx)
      split
      · exact ⟨hlt, htail⟩
      · rename_i t0 hfind
        refine ⟨hlt, ?_⟩
        have hpx : ∀ x, prioOf (updateTask s.tasks tid (markAssigned now w.id)) x =
            prioOf s.tasks x :=
          prio_updateTask (markAssigned_id now w.id) (markAssigned_priority now w.id)
        refine List.Pairwise.imp_of_mem ?_ htail
        intro a b _ _ hab
        simp only [prio] at hab ⊢
        rw [hpx a, hpx b]
        exact hab
  · exact h

theorem invNS_assignNextTask {s : MasterState} {now : Nat} {chosen : Option String}
    (h : InvNS s) : InvNS (assignNextTask now chosen s) := by
  unfold assignNextTask
  cases resolveWorker chosen s with
  | none => exact h
  | some w => exact invNS_assignTo h

theorem invNS_registerWorker {s : MasterState} {now : Nat} {reg : WorkerRegistration}
    (h : InvNS s) : InvNS (registerWorker now reg s).2 :=
  ⟨h.queueLtNext, h.ordered⟩

theorem invNS_processHeartbeat {s s' : MasterState} {now : Nat} {hb : Heartbeat}
    (h : InvNS s) (hok : processHeartbeat now hb s = Except.ok s') : InvNS s' := by
  unfold processHeartbeat at hok
  cases hfw : lookupWorker s hb.workerId with
  | none => rw [hfw] at hok; cases hok
  | some w =>
    rw [hfw] at hok
    simp only at hok
    have hbase : InvNS { s with workers := updateWorker s.workers w.id (applyHeartbeat hb) } :=
      ⟨h.queueLtNext, h.ordered⟩
    by_cases hst : hb.status = WorkerStatus.IDLE
    · rw [if_pos hst, Except.ok.injEq] at hok
      exact hok ▸ invNS_assignNextTask hbase
    · rw [if_neg hst, Except.ok.injEq] at hok
      exact hok ▸ hbase

theorem invNS_processTaskResult {s s' : MasterState} {now : Nat} {r : TaskResult}
    (h : InvNS s) (hok : processTaskResult now r s = Except.ok s') : InvNS s' := by
  unfold processTaskResult at hok
  cases hft : lookupTask s r.taskId with
  | none => rw [hft] at hok; cases hok
  | some t =>
    rw [hft] at hok
    simp only at hok
    have hbase : InvNS { s with tasks := updateTask s.tasks t.id (applyResultStatus now r.status) } := by
      refine ⟨h.queueLtNext, ?_⟩
      have hpx : ∀ x, prioOf (updateTask s.tasks t.id (applyResultStatus now r.status)) x =
          prioOf s.tasks x :=
        prio_updateTask (applyResultStatus_id now r.status) (applyResultStatus_priority now r.status)
      refine List.Pairwise.imp_of_mem ?_ h.ordered
      intro a b _ _ hab
      simp only [prio] at hab ⊢
      rw [hpx a, hpx b]
      exact hab
    by_cases hfin : r.status.isFinished
    · rw [if_pos hfin] at hok
      split at hok
      · rw [Except.ok.injEq] at hok
        exact hok ▸ hbase
      · split at hok
        · rw [Except.ok.injEq] at hok
          exact hok ▸ hbase
        · rw [Except.ok.injEq] at hok
          exact hok ▸ invNS_assignNextTask ⟨hbase.queueLtNext, hbase.ordered⟩
    · rw [if_neg hfin, Except.ok.injEq] at hok
      exact hok ▸ hbase

theorem invNS_submitState {s : MasterState} {now : Nat} {taskType payload : String}
    {priority : Int} (hinv : Inv s) (h : InvNS s) :
    InvNS (submitState now taskType payload priority s) := by
  unfold submitState newTaskOf
  simp only
  set newTask : Task :=
    { id := s.nextId, type := taskType, payload := payload, priority := priority,
      status := TaskStatus.PENDING, assignedWorker := none,
      createdAt := now, updatedAt := now, retryCount := 0 } with hnewdef
  have hfresh : ∀ x ∈ s.tasks, x.id ≠ newTask.id := fun x hx =>
    Nat.ne_of_lt (hinv.idsLtNext x hx)
  have hset : setTask s.tasks newTask = s.tasks ++ [newTask] := setTask_of_fresh hfresh
  have hpold : ∀ x, x ≠ s.nextId → prioOf (setTask s.tasks newTask) x = prioOf s.tasks x := by
    intro x hx
    rw [hset]
    exact prio_append_fresh hx
  refine ⟨?_, ?_⟩
  · intro x hx
    rcases List.mem_append.mp (mem_sortQ.mp hx) with hq | hm
    · exact Nat.lt_succ_of_lt (h.queueLtNext x hq)
    · rw [List.mem_singleton] at hm
      exact hm ▸ Nat.lt_succ_self _
  · have hin : (s.taskQueue ++ [s.nextId]).Pairwise fun a b =>
        prioOf (setTask s.tasks newTask) a = prioOf (setTask s.tasks newTask) b → a < b := by
      rw [List.pairwise_append]
      refine ⟨?_, List.pairwise_singleton _ _, ?_⟩
      · refine List.Pairwise.imp_of_mem ?_ h.ordered
        intro a b ha hb hab heq
        rw [hpold a (Nat.ne_of_lt (h.queueLtNext a ha)),
            hpold b (Nat.ne_of_lt (h.queueLtNext b hb))] at heq
        rcases hab with hlt | ⟨_, hab⟩
        · simp only [prio] at hlt
          omega
        · exact hab
      · intro a ha b hb
        rw [List.mem_singleton] at hb
        subst hb
        exact fun _ => h.queueLtNext a ha
    have := pairwise_sortQ hin
    refine List.Pairwise.imp_of_mem ?_ this
    intro a b _ _ hab
    simp only [prio]
    exact hab

theorem invNS_submitTask {s : MasterState} {now : Nat} {taskType payload : String}
    {priority : Int} (hinv : Inv s) (h : InvNS s) :
    InvNS (submitTask now taskType payload priority s).2 :=
  invNS_assignNextTask (invNS_submitState hinv h)

theorem invNS_stepNS {s s' : MasterState} (hinv : Inv s) (h : InvNS s)
    (hs : StepNS s s') : InvNS s' := by
  cases hs with
  | register now reg => exact invNS_registerWorker h
  | heartbeat s2 now hb hok => exact invNS_processHeartbeat h hok
  | submit now taskType payload priority => exact invNS_submitTask hinv h
  | result s2 now r hok => exact invNS_processTaskResult h hok

theorem step_of_stepNS : ∀ {s s' : MasterState}, StepNS s s' → Step s s'
  | s, _, StepNS.register _ now reg => Step.register s now reg
  | s, s', StepNS.heartbeat _ _ now hb h => Step.heartbeat s s' now hb h
  | s, _, StepNS.submit _ now taskType payload priority =>
      Step.submit s now taskType payload priority
  | s, s', StepNS.result _ _ now r h => Step.result s s' now r h

theorem reachable_of_reachableNS {s : MasterState} (h : ReachableNS s) : Reachable s := by
  induction h with
  | init => exact Reachable.init
  | step s s' _ hstep ih => exact Reachable.step s s' ih (step_of_stepNS hstep)

theorem invNS_reachableNS {s : MasterState} (h : ReachableNS s) : InvNS s := by
  induction h with
  | init => exact invNS_initialState
  | step s s' hr hstep ih =>
    exact invNS_stepNS (inv_reachable (reachable_of_reachableNS hr)) ih hstep

/-! ### Pointwise characterisation of assignment and of the health sweep -/

theorem eq_of_nodup_wids {ws : List WorkerNode} (hn : (ws.map WorkerNode.id).Nodup)
    {a b : WorkerNode} (ha : a ∈ ws) (hb : b ∈ ws) (hid : a.id = b.id) : a = b :=
  List.inj_on_of_nodup_map hn ha hb hid

theorem nodup_wids_cons {x : WorkerNode} {ws : List WorkerNode}
    (hn : ((x :: ws).map WorkerNode.id).Nodup) :
    (∀ y ∈ ws, y.id ≠ x.id) ∧ (ws.map WorkerNode.id).Nodup := by
  simpa using hn

theorem nodup_tids_cons {x : Task} {ts : List Task}
    (hn : ((x :: ts).map Task.id).Nodup) :
    (∀ y ∈ ts, y.id ≠ x.id) ∧ (ts.map Task.id).Nodup := by
  simpa using hn

theorem findTask_of_mem_nodup {ts : List Task} {t : Task}
    (hn : (ts.map Task.id).Nodup) (hm : t ∈ ts) : findTask ts t.id = some t := by
  induction ts with
  | nil => cases hm
  | cons x ts ih =>
    by_cases hx : x.id = t.id
    · have : x = t :=
        eq_of_nodup_ids hn (List.mem_cons_self _ _) hm hx
      simp [findTask, hx, this]
    · cases hm with
      | head => exact absurd rfl hx
      | tail _ hm' =>
        have hn' : (ts.map Task.id).Nodup := (List.nodup_cons.mp (by simpa using hn)).2
        simpa [findTask, hx] using ih hn' hm'

theorem findWorker_of_mem_nodup {ws : List WorkerNode} {w : WorkerNode}
    (hn : (ws.map WorkerNode.id).Nodup) (hm : w ∈ ws) : findWorker ws w.id = some w := by
  induction ws with
  | nil => cases hm
  | cons x ws ih =>
    by_cases hx : x.id = w.id
    · have : x = w :=
        eq_of_nodup_wids hn (List.mem_cons_self _ _) hm hx
      simp [findWorker, hx, this]
    · cases hm with
      | head => exact absurd rfl hx
      | tail _ hm' =>
        have hn' : (ws.map WorkerNode.id).Nodup := (List.nodup_cons.mp (by simpa using hn)).2
        simpa [findWorker, hx] using ih hn' hm'

theorem assignTo_of_empty {s : MasterState} {now : Nat} {w : WorkerNode}
    (hq : s.taskQueue = []) : assignTo now w s = s := by
  unfold assignTo
  split
  · split
    · rfl
    · rename_i tid rest heq
      rw [hq] at heq
      cases heq
  · rfl

theorem assignNextTask_of_empty {s : MasterState} {now : Nat} {chosen : Option String}
    (hq : s.taskQueue = []) : assignNextTask now chosen s = s := by
  unfold assignNextTask
  cases hres : resolveWorker chosen s with
  | none => rfl
  | some w => exact assignTo_of_empty hq

theorem assignTo_spec {s : MasterState} {now : Nat} {w : WorkerNode} {tid : Nat}
    {rest : List Nat} {t : Task} (hidle : w.status.isIdle = true)
    (hq : s.taskQueue = tid :: rest) (hfind : lookupTask s tid = some t) :
    assignTo now w s =
      { s with taskQueue := rest,
               tasks := updateTask s.tasks tid (markAssigned now w.id),
               workers := updateWorker s.workers w.id markBusy } := by
  unfold assignTo
  rw [if_pos hidle]
  split
  · rename_i heq
    rw [hq] at heq
    cases heq
  · rename_i tid' rest' heq
    rw [hq] at heq
    injection heq with h1 h2
    subst h1
    subst h2
    split
    · rename_i hnone
      rw [hfind] at hnone
      cases hnone
    · rfl

theorem lookupTask_assignNextTask (s : MasterState) (now : Nat) (chosen : Option String)
    (tid : Nat) :
    lookupTask (assignNextTask now chosen s) tid = lookupTask s tid ∨
    ∃ w : WorkerNode, lookupTask (assignNextTask now chosen s) tid =
      (lookupTask s tid).map (markAssigned now w.id) := by
  unfold assignNextTask
  cases hres : resolveWorker chosen s with
  | none => exact Or.inl rfl
  | some w =>
    show lookupTask (assignTo now w s) tid = lookupTask s tid ∨
      ∃ w' : WorkerNode, lookupTask (assignTo now w s) tid =
        (lookupTask s tid).map (markAssigned now w'.id)
    unfold assignTo
    split
    · split
      · exact Or.inl rfl
      · rename_i tid0 rest heq
        split
        · exact Or.inl rfl
        · by_cases hc : tid = tid0
          · subst hc
            refine Or.inr ⟨w, ?_⟩
            show findTask (updateTask s.tasks tid (markAssigned now w.id)) tid = _
            rw [findTask_updateTask_self (markAssigned_id now w.id)]
            rfl
          · refine Or.inl ?_
            show findTask (updateTask s.tasks tid0 (markAssigned now w.id)) tid = _
            rw [findTask_updateTask_ne (markAssigned_id now w.id) hc]
            rfl
    · exact Or.inl rfl

theorem submitState_lookup (s : MasterState) (now : Nat) (taskType payload : String)
    (priority : Int) :
    lookupTask (submitState now taskType payload priority s) s.nextId =
      some (newTaskOf now taskType payload priority s.nextId) := by
  show findTask (setTask s.tasks (newTaskOf now taskType payload priority s.nextId))
    s.nextId = _
  exact findTask_setTask_self s.tasks _

theorem sweepGo_findWorker_untouched {now : Nat} :
    ∀ (ws : List WorkerNode) (s : MasterState) (wid : String),
    (∀ x ∈ ws, x.id ≠ wid) →
    findWorker (sweepGo now ws s).workers wid = findWorker s.workers wid := by
  intro ws
  induction ws with
  | nil => intro s wid _; rfl
  | cons x ws ih =>
    intro s wid hne
    have hx : x.id ≠ wid := hne x (List.mem_cons_self _ _)
    have hrest : ∀ y ∈ ws, y.id ≠ wid := fun y hy => hne y (List.mem_cons_of_mem _ hy)
    unfold sweepGo
    by_cases hc : 30000 < now - x.lastHeartbeat
    · rw [if_pos hc, ih _ wid hrest]
      show findWorker (updateWorker s.workers x.id markOffline) wid = findWorker s.workers wid
      exact findWorker_updateWorker_ne markOffline_id (fun h => hx h.symm)
    · rw [if_neg hc]
      exact ih _ wid hrest

theorem sweepGo_findWorker_hit {now : Nat} :
    ∀ (ws : List WorkerNode) (s : MasterState) (w cur : WorkerNode),
    w ∈ ws → (ws.map WorkerNode.id).Nodup → 30000 < now - w.lastHeartbeat →
    findWorker s.workers w.id = some cur →
    findWorker (sweepGo now ws s).workers w.id = some (markOffline cur) := by
  intro ws
  induction ws with
  | nil => intro s w cur hm; cases hm
  | cons x ws ih =>
    intro s w cur hm hn htime hcur
    have hn2 := nodup_wids_cons hn
    cases hm with
    | head =>
      unfold sweepGo
      rw [if_pos htime]
      rw [sweepGo_findWorker_untouched ws _ x.id hn2.1]
      show findWorker (updateWorker s.workers x.id markOffline) x.id = _
      rw [findWorker_updateWorker_self markOffline_id, hcur]
      rfl
    | tail _ hm' =>
      have hxw : x.id ≠ w.id := fun h => hn2.1 w hm' h.symm
      unfold sweepGo
      by_cases hc : 30000 < now - x.lastHeartbeat
      · rw [if_pos hc]
        refine ih _ w cur hm' hn2.2 htime ?_
        show findWorker (updateWorker s.workers x.id markOffline) w.id = some cur
        rw [findWorker_updateWorker_ne markOffline_id (Ne.symm hxw)]
        exact hcur
      · rw [if_neg hc]
        exact ih _ w cur hm' hn2.2 htime hcur

theorem sweepHit_false_of_none {wid : String} {t : Task}
    (h : t.assignedWorker = none) : sweepHit wid t = false := by
  simp [sweepHit, h]

theorem sweepHit_false_of_ne {wid wid' : String} {t : Task}
    (h : t.assignedWorker = some wid') (hne : wid' ≠ wid) : sweepHit wid t = false := by
  simp [sweepHit, h, hne]

theorem applyOffline_findTask {wid : String} {s : MasterState} {tid : Nat} :
    findTask (applyOffline wid s).tasks tid =
      (findTask s.tasks tid).map fun t => if sweepHit wid t then sweepClear t else t := by
  show findTask (s.tasks.map _) tid = _
  exact findTask_map (fun t => by by_cases hc : sweepHit wid t <;> simp [hc, sweepClear]) tid

theorem sweepGo_findTask_none {now : Nat} :
    ∀ (ws : List WorkerNode) (s : MasterState) (tid : Nat) (cur : Task),
    findTask s.tasks tid = some cur → cur.assignedWorker = none →
    findTask (sweepGo now ws s).tasks tid = some cur := by
  intro ws
  induction ws with
  | nil => intro s tid cur hcur _; exact hcur
  | cons x ws ih =>
    intro s tid cur hcur hnone
    unfold sweepGo
    by_cases hc : 30000 < now - x.lastHeartbeat
    · rw [if_pos hc]
      refine ih _ tid cur ?_ hnone
      rw [applyOffline_findTask, hcur]
      simp [sweepHit_false_of_none hnone]
    · rw [if_neg hc]
      exact ih _ tid cur hcur hnone

theorem sweepGo_findTask_hit {now : Nat} :
    ∀ (ws : List WorkerNode) (s : MasterState) (w : WorkerNode) (t : Task),
    w ∈ ws → (ws.map WorkerNode.id).Nodup → 30000 < now - w.lastHeartbeat →
    findTask s.tasks t.id = some t → t.assignedWorker = some w.id →
    t.status.isActive = true →
    findTask (sweepGo now ws s).tasks t.id = some (sweepClear t) := by
  intro ws
  induction ws with
  | nil => intro s w t hm; cases hm
  | cons x ws ih =>
    intro s w t hm hn htime hcur hassigned hactive
    have hn2 := nodup_wids_cons hn
    cases hm with
    | head =>
      unfold sweepGo
      rw [if_pos htime]
      refine sweepGo_findTask_none ws _ t.id (sweepClear t) ?_ rfl
      rw [applyOffline_findTask, hcur]
      have hhit : sweepHit x.id t = true := by
        simp [sweepHit, hassigned, hactive]
      simp [hhit]
    | tail _ hm' =>
      have hxw : x.id ≠ w.id := fun h => hn2.1 w hm' h.symm
      unfold sweepGo
      by_cases hc : 30000 < now - x.lastHeartbeat
      · rw [if_pos hc]
        refine ih _ w t hm' hn2.2 htime ?_ hassigned hactive
        rw [applyOffline_findTask, hcur]
        simp [sweepHit_false_of_ne hassigned (fun h => hxw h.symm)]
      · rw [if_neg hc]
        exact ih _ w t hm' hn2.2 htime hcur hassigned hactive

/-! ### Claim theorems -/

/-- C1 (counterexample): the no-orphaned-assignment invariant fails on a
reachable trace.  Register a worker, submit a task (it is assigned, the
worker goes BUSY), then process a heartbeat in which the worker reports
IDLE: `processHeartbeat` copies the reported status over the registry
blindly, so afterwards task 0 is still ASSIGNED with
`assignedWorker = "w1"` while worker `"w1"` is IDLE, not BUSY. -/
theorem claim1_counterexample :
    Reachable c1s3 ∧
    ((lookupTask c1s3 0).map Task.status = some TaskStatus.ASSIGNED ∧
     (lookupTask c1s3 0).map Task.assignedWorker = some (some "w1") ∧
     (lookupWorker c1s3 "w1").map WorkerNode.status = some WorkerStatus.IDLE ∧
     WorkerStatus.IDLE ≠ WorkerStatus.BUSY) := by
  constructor
  · exact Reachable.step _ _
      (Reachable.step _ _
        (Reachable.step _ _ Reachable.init (Step.register _ 0 regW1))
        (Step.submit _ 1 "t" "p" 1))
      (Step.heartbeat _ _ 10 c1hb (by rfl))
  · decide

/-- C1 (amended): what the code actually guarantees.  (1) In every
reachable state, a task's `assignedWorker`, when set, names a registered
worker — workers are never removed and assignment only ever picks
registered workers.  (2) Immediately after `assignNextTask` assigns the
queue head to an IDLE worker, that task is ASSIGNED with `assignedWorker`
set to that worker and the worker is BUSY.  The full invariant claimed in
the spec (worker BUSY with exactly that task, at every instant) is not
preserved: a heartbeat that reports IDLE for a worker holding an ASSIGNED
task breaks it (see the counterexample). -/
theorem claim1_theorem :
    (∀ s : MasterState, Reachable s → ∀ t ∈ s.tasks, ∀ wid,
      t.assignedWorker = some wid → (lookupWorker s wid).isSome) ∧
    (∀ (s : MasterState) (now : Nat) (wid : String) (w : WorkerNode) (tid : Nat)
        (rest : List Nat) (t : Task),
      lookupWorker s wid = some w → w.status = WorkerStatus.IDLE →
      s.taskQueue = tid :: rest → lookupTask s tid = some t →
      lookupTask (assignNextTask now (some wid) s) tid = some (markAssigned now wid t) ∧
      lookupWorker (assignNextTask now (some wid) s) wid = some (markBusy w) ∧
      (markAssigned now wid t).status = TaskStatus.ASSIGNED ∧
      (markAssigned now wid t).assignedWorker = some wid ∧
      (markBusy w).status = WorkerStatus.BUSY) := by
  constructor
  · intro s h t ht wid hw
    exact (inv_reachable h).assignedRegistered t ht wid hw
  · intro s now wid w tid rest t hw hst hq hfind
    have hwid : w.id = wid := (findWorker_some hw).1
    subst hwid
    have hidle : w.status.isIdle = true := by rw [hst]; rfl
    have hassign : assignNextTask now (some w.id) s = assignTo now w s := by
      unfold assignNextTask resolveWorker
      show (match lookupWorker s w.id with
        | none => s
        | some w' => assignTo now w' s) = assignTo now w s
      rw [hw]
    have hfind0 : findTask s.tasks tid = some t := hfind
    have hw0 : findWorker s.workers w.id = some w := hw
    rw [hassign, assignTo_spec hidle hq hfind]
    refine ⟨?_, ?_, rfl, rfl, rfl⟩
    · show findTask (updateTask s.tasks tid (markAssigned now w.id)) tid = _
      rw [findTask_updateTask_self (markAssigned_id now w.id), hfind0]
      rfl
    · show findWorker (updateWorker s.workers w.id markBusy) w.id = _
      rw [findWorker_updateWorker_self markBusy_id, hw0]
      rfl

/-- C1 (witness): the amended theorem applied at the initial state and at
a concrete assignment. -/
theorem claim1_witness :
    (∀ t ∈ initialState.tasks, ∀ wid, t.assignedWorker = some wid →
      (lookupWorker initialState wid).isSome) ∧
    (lookupTask (assignNextTask 7 (some "w1") c2state) 0 = some (markAssigned 7 "w1" c2t1) ∧
     lookupWorker (assignNextTask 7 (some "w1") c2state) "w1" = some (markBusy c2w) ∧
     (markAssigned 7 "w1" c2t1).status = TaskStatus.ASSIGNED ∧
     (markAssigned 7 "w1" c2t1).assignedWorker = some "w1" ∧
     (markBusy c2w).status = WorkerStatus.BUSY) :=
  ⟨claim1_theorem.1 initialState Reachable.init,
   claim1_theorem.2 c2state 7 "w1" c2w 0 [1] c2t1 (by decide) rfl rfl (by decide)⟩

/-- C2 (counterexample): assignment does not pick the highest-priority
PENDING task — it shifts the queue head unconditionally.  In a state
whose queue is `[0, 1]` with task 0 at priority 1 and task 1 at
priority 5 (both PENDING; such queues arise from the health sweep's
sort-free re-enqueue), handing the IDLE worker to `assignNextTask`
assigns task 0 and leaves the higher-priority task 1 pending. -/
theorem claim2_counterexample :
    (lookupWorker c2state "w1").map WorkerNode.status = some WorkerStatus.IDLE ∧
    c2state.taskQueue = [0, 1] ∧
    (lookupTask c2state 0).map Task.status = some TaskStatus.PENDING ∧
    (lookupTask c2state 1).map Task.status = some TaskStatus.PENDING ∧
    prio c2state 0 = 1 ∧
    prio c2state 1 = 5 ∧
    (lookupTask c2post 0).map Task.status = some TaskStatus.ASSIGNED ∧
    (lookupTask c2post 1).map Task.status = some TaskStatus.PENDING := by
  decide

/-- C2 (amended): given an IDLE worker, `assignNextTask` assigns exactly
the task at the head of the queue — with no dependency, capability,
status or priority filtering (the source's `Task` has no dependency or
capability-requirement fields at all): the task becomes ASSIGNED with
`assignedWorker` set to the worker's id and the worker becomes BUSY.
When the queue is empty, queue and worker are left untouched. -/
theorem claim2_theorem :
    ∀ (s : MasterState) (now : Nat) (wid : String) (w : WorkerNode),
      lookupWorker s wid = some w → w.status = WorkerStatus.IDLE →
      ((s.taskQueue = [] → assignNextTask now (some wid) s = s) ∧
       (∀ (tid : Nat) (rest : List Nat) (t : Task), s.taskQueue = tid :: rest →
         lookupTask s tid = some t →
         (assignNextTask now (some wid) s).taskQueue = rest ∧
         lookupTask (assignNextTask now (some wid) s) tid = some (markAssigned now wid t) ∧
         lookupWorker (assignNextTask now (some wid) s) wid = some (markBusy w))) := by
  intro s now wid w hw hst
  have hwid : w.id = wid := (findWorker_some hw).1
  subst hwid
  have hidle : w.status.isIdle = true := by rw [hst]; rfl
  have hassign : assignNextTask now (some w.id) s = assignTo now w s := by
    unfold assignNextTask resolveWorker
    show (match lookupWorker s w.id with
      | none => s
      | some w' => assignTo now w' s) = assignTo now w s
    rw [hw]
  have hw0 : findWorker s.workers w.id = some w := hw
  constructor
  · intro hq
    exact assignNextTask_of_empty hq
  · intro tid rest t hq hfind
    have hfind0 : findTask s.tasks tid = some t := hfind
    rw [hassign, assignTo_spec hidle hq hfind]
    refine ⟨rfl, ?_, ?_⟩
    · show findTask (updateTask s.tasks tid (markAssigned now w.id)) tid = _
      rw [findTask_updateTask_self (markAssigned_id now w.id), hfind0]
      rfl
    · show findWorker (updateWorker s.workers w.id markBusy) w.id = _
      rw [findWorker_updateWorker_self markBusy_id, hw0]
      rfl

/-- C2 (witness): the amended theorem applied in a concrete state, in
both the empty-queue and the head-assignment form. -/
theorem claim2_witness :
    (assignNextTask 8 (some "w1") c8s1 = c8s1) ∧
    ((assignNextTask 7 (some "w1") c2state).taskQueue = [1] ∧
     lookupTask (assignNextTask 7 (some "w1") c2state) 0 = some (markAssigned 7 "w1" c2t1) ∧
     lookupWorker (assignNextTask 7 (some "w1") c2state) "w1" = some (markBusy c2w)) :=
  ⟨(claim2_theorem c8s1 8 "w1" c2w (by decide) rfl).1 rfl,
   (claim2_theorem c2state 7 "w1" c2w (by decide) rfl).2 0 [1] c2t1 rfl (by decide)⟩

/-- C3 (counterexample): dequeue order can violate both priority order
and FIFO-within-priority once a worker-loss reassignment happens.  On a
reachable trace, task 0 (priority 5, submitted first) is re-enqueued by
the health sweep behind task 1 (priority 1, submitted second), and the
next idle heartbeat dequeues the priority-1 task while the priority-5
task stays PENDING in the queue. -/
theorem claim3_counterexample :
    Reachable c3s6 ∧
    (prio c3s6 0 = 5 ∧
     prio c3s6 1 = 1 ∧
     (lookupTask c3s6 1).map Task.status = some TaskStatus.ASSIGNED ∧
     (lookupTask c3s6 0).map Task.status = some TaskStatus.PENDING ∧
     c3s6.taskQueue = [0]) := by
  constructor
  · exact Reachable.step _ _
      (Reachable.step _ _
        (Reachable.step _ _
          (Reachable.step _ _
            (Reachable.step _ _
              (Reachable.step _ _ Reachable.init (Step.register _ 0 regW1))
              (Step.submit _ 1 "t" "p" 5))
            (Step.submit _ 2 "t" "p" 1))
          (Step.sweep _ 40000))
        (Step.register _ 40000 regW2))
      (Step.heartbeat _ _ 40001 c3hb (by rfl))
  · decide

/-- C3 (amended): in every state reachable without health-sweep
reassignments, the queue is ordered by priority descending and, within
equal priority, by submission order (task ids increase with submission
and all queued ids are below the fresh counter); since assignment always
dequeues the head, equal-priority tasks are dequeued FIFO and no
lower-priority task is dequeued before a higher-priority one.  With
worker-loss reassignments the original claim fails, because the sweep
appends to the queue without re-sorting. -/
theorem claim3_theorem :
    ∀ s : MasterState, ReachableNS s →
      (∀ tid ∈ s.taskQueue, tid < s.nextId) ∧
      s.taskQueue.Pairwise (fun a b =>
        prio s b < prio s a ∨ (prio s a = prio s b ∧ a < b)) := by
  intro s h
  have hi := invNS_reachableNS h
  exact ⟨hi.queueLtNext, hi.ordered⟩

/-- C3 (witness): the amended theorem applied to the sweep-free trace
that submits priorities 5, 1, 5; its queue is `[2, 1]`, correctly
ordered. -/
theorem claim3_witness :
    (∀ tid ∈ c8s4.taskQueue, tid < c8s4.nextId) ∧
    c8s4.taskQueue.Pairwise (fun a b =>
      prio c8s4 b < prio c8s4 a ∨ (prio c8s4 a = prio c8s4 b ∧ a < b)) :=
  claim3_theorem c8s4
    (ReachableNS.step _ _
      (ReachableNS.step _ _
        (ReachableNS.step _ _
          (ReachableNS.step _ _ ReachableNS.init (StepNS.register _ 0 regW1))
          (StepNS.submit _ 1 "t" "p" 5))
        (StepNS.submit _ 2 "t" "p" 1))
      (StepNS.submit _ 3 "t" "p" 5))

/-- C4 (counterexample): the sweep does move the worker OFFLINE and the
task back to PENDING with its worker cleared, but nothing is decremented:
the source's `Task` has no retry field for `startHealthMonitoring` to
touch, and the declared `retryCount` (mirrored here as a ghost field) is
left at 3, not 2, by the sweep. -/
theorem claim4_counterexample :
    (lookupWorker c4state "w1").map WorkerNode.status = some WorkerStatus.BUSY ∧
    30000 < 40000 - c4worker.lastHeartbeat ∧
    (lookupTask c4state 0).map Task.retryCount = some 3 ∧
    (lookupWorker c4post "w1").map WorkerNode.status = some WorkerStatus.OFFLINE ∧
    (lookupTask c4post 0).map Task.status = some TaskStatus.PENDING ∧
    (lookupTask c4post 0).map Task.assignedWorker = some none ∧
    (lookupTask c4post 0).map Task.retryCount = some 3 ∧
    (3 : Nat) ≠ 3 - 1 := by
  decide

/-- C4 (amended): for every worker whose last heartbeat is more than
30000 ms old at sweep time and whose single active task is recorded as
assigned to it, the sweep leaves the worker OFFLINE and the task PENDING
with `assignedWorker` cleared — and every other task field, including the
declared retry count, unchanged (the code maintains no retry budget, so
nothing is decremented). -/
theorem claim4_theorem {s : MasterState} {now : Nat} {w : WorkerNode} {t : Task}
    (hwmem : w ∈ s.workers)
    (hwnodup : (s.workers.map WorkerNode.id).Nodup)
    (htnodup : (s.tasks.map Task.id).Nodup)
    (_hlive : w.status ≠ WorkerStatus.OFFLINE)
    (htime : 30000 < now - w.lastHeartbeat)
    (htmem : t ∈ s.tasks)
    (hassigned : t.assignedWorker = some w.id)
    (hactive : t.status.isActive = true)
    (_honly : ∀ u ∈ s.tasks, u.assignedWorker = some w.id → u = t) :
    lookupWorker (healthSweep now s) w.id = some (markOffline w) ∧
    lookupTask (healthSweep now s) t.id = some (sweepClear t) ∧
    (markOffline w).status = WorkerStatus.OFFLINE ∧
    (sweepClear t).status = TaskStatus.PENDING ∧
    (sweepClear t).assignedWorker = none ∧
    (sweepClear t).retryCount = t.retryCount := by
  refine ⟨?_, ?_, rfl, rfl, rfl, rfl⟩
  · exact sweepGo_findWorker_hit s.workers s w w hwmem hwnodup htime
      (findWorker_of_mem_nodup hwnodup hwmem)
  · exact sweepGo_findTask_hit s.workers s w t hwmem hwnodup htime
      (findTask_of_mem_nodup htnodup htmem) hassigned hactive

/-- C4 (witness): the amended theorem applied to the concrete timed-out
worker and its assigned task. -/
theorem claim4_witness :
    lookupWorker (healthSweep 40000 c4state) c4worker.id = some (markOffline c4worker) ∧
    lookupTask (healthSweep 40000 c4state) c4task.id = some (sweepClear c4task) ∧
    (markOffline c4worker).status = WorkerStatus.OFFLINE ∧
    (sweepClear c4task).status = TaskStatus.PENDING ∧
    (sweepClear c4task).assignedWorker = none ∧
    (sweepClear c4task).retryCount = c4task.retryCount :=
  claim4_theorem (by decide) (by decide) (by decide) (by decide) (by decide)
    (by decide) (by decide) (by decide) (by decide)

/-- C5 (counterexample): a failure result for a task with a positive
declared retry budget does not re-enqueue it: the task goes straight to
FAILED, the queue stays empty, and the (ghost) retry count is untouched;
only the worker-freeing half of the claim holds. -/
theorem claim5_counterexample :
    (lookupTask c5state 0).map Task.retryCount = some 2 ∧
    (0 : Nat) < 2 ∧
    (processTaskResult 50 c5res c5state).isOk = true ∧
    (lookupTask c5post 0).map Task.status = some TaskStatus.FAILED ∧
    (lookupTask c5post 0).map Task.retryCount = some 2 ∧
    c5post.taskQueue = [] ∧
    (lookupWorker c5post "w1").map WorkerNode.status = some WorkerStatus.IDLE := by
  decide

/-- C5 (amended): for every FAILED result for an existing task recorded
as assigned to a registered worker (stated here with an empty queue so
the freed worker is not immediately re-assigned), the task becomes FAILED
— there is no retry path, whatever the declared budget — with its retry
count unchanged, and the worker that held it is set to IDLE. -/
theorem claim5_theorem {s : MasterState} {now : Nat} {r : TaskResult} {t : Task}
    {w : WorkerNode}
    (hr : r.status = TaskStatus.FAILED)
    (hfind : lookupTask s r.taskId = some t)
    (hassigned : t.assignedWorker = some w.id)
    (hw : lookupWorker s w.id = some w)
    (hq : s.taskQueue = [])
    (_hretry : 0 < t.retryCount) :
    (processTaskResult now r s).isOk = true ∧
    lookupTask (runResult now r s) r.taskId =
      some (applyResultStatus now TaskStatus.FAILED t) ∧
    (applyResultStatus now TaskStatus.FAILED t).status = TaskStatus.FAILED ∧
    (applyResultStatus now TaskStatus.FAILED t).retryCount = t.retryCount ∧
    lookupWorker (runResult now r s) w.id = some (markIdle w) ∧
    (runResult now r s).taskQueue = [] := by
  have htid : t.id = r.taskId := (findTask_some hfind).1
  have hfin : r.status.isFinished = true := by rw [hr]; rfl
  have heq : processTaskResult now r s = Except.ok (assignNextTask now (some w.id)
      { s with tasks := updateTask s.tasks t.id (applyResultStatus now r.status), workers := updateWorker s.workers w.id markIdle }) := by
    unfold processTaskResult
    rw [hfind]
    simp only
    rw [if_pos hfin, hassigned]
    simp only
    have hw1 : lookupWorker
        { s with tasks := updateTask s.tasks t.id (applyResultStatus now r.status) } w.id =
        some w := hw
    rw [hw1]
  have hq2 : ({ s with tasks := updateTask s.tasks t.id (applyResultStatus now r.status), workers := updateWorker s.workers w.id markIdle } : MasterState).taskQueue = [] := hq
  rw [assignNextTask_of_empty hq2] at heq
  have hrun : runResult now r s =
      { s with tasks := updateTask s.tasks t.id (applyResultStatus now r.status), workers := updateWorker s.workers w.id markIdle } := by
    rw [runResult, heq]
    rfl
  refine ⟨by rw [heq]; rfl, ?_, rfl, rfl, ?_, ?_⟩
  · rw [hrun]
    show findTask (updateTask s.tasks t.id (applyResultStatus now r.status)) r.taskId = _
    rw [← htid, findTask_updateTask_self (applyResultStatus_id now r.status)]
    have hfind0 : findTask s.tasks t.id = some t := by
      rw [htid]
      exact hfind
    rw [hfind0, hr]
    rfl
  · rw [hrun]
    show findWorker (updateWorker s.workers w.id markIdle) w.id = _
    rw [findWorker_updateWorker_self markIdle_id]
    have hw0 : findWorker s.workers w.id = some w := hw
    rw [hw0]
    rfl
  · rw [hrun]
    exact hq

/-- C5 (witness): the amended theorem applied to the concrete
failure-result scenario. -/
theorem claim5_witness :
    (processTaskResult 50 c5res c5state).isOk = true ∧
    lookupTask (runResult 50 c5res c5state) c5res.taskId =
      some (applyResultStatus 50 TaskStatus.FAILED c5task) ∧
    (applyResultStatus 50 TaskStatus.FAILED c5task).status = TaskStatus.FAILED ∧
    (applyResultStatus 50 TaskStatus.FAILED c5task).retryCount = c5task.retryCount ∧
    lookupWorker (runResult 50 c5res c5state) c5worker.id = some (markIdle c5worker) ∧
    (runResult 50 c5res c5state).taskQueue = [] :=
  claim5_theorem (by decide) (by decide) (by decide) (by decide) rfl (by decide)

/-- C6 (counterexample): registering an id that is already live does not
fail — `registerWorker` has no duplicate check and no error path at all.
With worker "w1" registered and BUSY, registering "w1" again succeeds and
overwrites the record (status reset to IDLE, heartbeat to now), so the
registry is not left unchanged and no `DuplicateId` error is produced. -/
theorem claim6_counterexample :
    (lookupWorker c6state "w1").map WorkerNode.status = some WorkerStatus.BUSY ∧
    c6post ≠ c6state ∧
    lookupWorker c6post "w1" = some { id := "w1", host := "h", port := 1, status := WorkerStatus.IDLE, capabilities := [], lastHeartbeat := 99 } := by
  decide

/-- C6 (amended): registration always succeeds, for fresh and live ids
alike: `registerWorker` returns a record with the request's fields,
status IDLE and `lastHeartbeat = now`, and `Map.set`s it into the
registry, overwriting any live worker under the same id. -/
theorem claim6_theorem :
    ∀ (s : MasterState) (now : Nat) (reg : WorkerRegistration),
      (registerWorker now reg s).1 = { id := reg.workerId, host := reg.host, port := reg.port, status := WorkerStatus.IDLE, capabilities := reg.capabilities, lastHeartbeat := now } ∧
      lookupWorker (registerWorker now reg s).2 reg.workerId = some { id := reg.workerId, host := reg.host, port := reg.port, status := WorkerStatus.IDLE, capabilities := reg.capabilities, lastHeartbeat := now } := by
  intro s now reg
  refine ⟨rfl, ?_⟩
  show findWorker (setWorker s.workers _) reg.workerId = _
  exact findWorker_setWorker_self s.workers _

/-- C7: a result whose task id is absent from the task store makes
`processTaskResult` throw `Task <id> not found` — before any mutation,
which the pure embedding renders as an error value with no successor
state: worker, task and queue state are untouched. -/
theorem claim7_theorem :
    ∀ (s : MasterState) (now : Nat) (r : TaskResult),
      lookupTask s r.taskId = none →
      processTaskResult now r s =
        Except.error ("Task " ++ toString r.taskId ++ " not found") := by
  intro s now r h
  unfold processTaskResult
  rw [h]

/-- C7 (witness): recording a result for task 0 on a fresh coordinator
fails with the unknown-task error. -/
theorem claim7_witness :
    lookupTask initialState 0 = none ∧
    processTaskResult 5 { taskId := 0, status := TaskStatus.COMPLETED, error := none, duration := 1 } initialState =
      Except.error ("Task " ++ toString (0 : Nat) ++ " not found") :=
  ⟨rfl, claim7_theorem initialState 5 _ rfl⟩

/-- C8: the priority-ordering scenario.  One IDLE worker; tasks 0, 1, 2
are submitted with priorities 5, 1, 5.  Task 0 is assigned immediately;
after its COMPLETED result task 2 (priority 5, submitted third) is
assigned; after task 2 completes, task 1 (priority 1) is assigned last —
the order task1, task3, task2 of the claim. -/
theorem claim8_theorem :
    ((lookupTask c8s2 0).map Task.status = some TaskStatus.ASSIGNED ∧
     (lookupTask c8s2 0).map Task.assignedWorker = some (some "w1")) ∧
    ((lookupTask c8s4 0).map Task.status = some TaskStatus.ASSIGNED ∧
     (lookupTask c8s4 1).map Task.status = some TaskStatus.PENDING ∧
     (lookupTask c8s4 2).map Task.status = some TaskStatus.PENDING ∧
     c8s4.taskQueue = [2, 1]) ∧
    ((processTaskResult 4 c8r0 c8s4).isOk = true ∧
     (lookupTask c8s5 2).map Task.status = some TaskStatus.ASSIGNED ∧
     (lookupTask c8s5 2).map Task.assignedWorker = some (some "w1") ∧
     (lookupTask c8s5 1).map Task.status = some TaskStatus.PENDING) ∧
    ((processTaskResult 5 c8r2 c8s5).isOk = true ∧
     (lookupTask c8s6 1).map Task.status = some TaskStatus.ASSIGNED ∧
     (lookupTask c8s6 1).map Task.assignedWorker = some (some "w1")) := by
  decide

/-- C9 (counterexample): a submission with a non-positive priority is not
rejected — `submitTask` validates nothing (and takes no timeout at all):
submitting priority −5 returns id 0 and creates the task, PENDING, with
priority −5 stored. -/
theorem claim9_counterexample :
    c9pair.1 = 0 ∧
    (lookupTask c9pair.2 0).map Task.priority = some (-5) ∧
    (lookupTask c9pair.2 0).map Task.status = some TaskStatus.PENDING ∧
    ((-5 : Int) ≤ 0) := by
  decide

/-- C9 (amended): every submission succeeds, with no validation of
priority (no timeout parameter exists in the source): the returned id is
the fresh counter value, and the post-state holds a task under that id
with the submitted type, payload and priority, in status PENDING — or
ASSIGNED when an IDLE worker picked it up in the immediate assignment
attempt. -/
theorem claim9_theorem :
    ∀ (s : MasterState) (now : Nat) (taskType payload : String) (priority : Int),
      (submitTask now taskType payload priority s).1 = s.nextId ∧
      ∃ t : Task,
        lookupTask (submitTask now taskType payload priority s).2 s.nextId = some t ∧
        t.type = taskType ∧ t.payload = payload ∧ t.priority = priority ∧
        (t.status = TaskStatus.PENDING ∨ t.status = TaskStatus.ASSIGNED) := by
  intro s now taskType payload priority
  refine ⟨rfl, ?_⟩
  show ∃ t : Task,
    lookupTask (assignNextTask now none (submitState now taskType payload priority s))
      s.nextId = some t ∧ _
  rcases lookupTask_assignNextTask (submitState now taskType payload priority s)
      now none s.nextId with h | ⟨w, h⟩ <;>
    rw [submitState_lookup] at h
  · exact ⟨_, h, rfl, rfl, rfl, Or.inl rfl⟩
  · exact ⟨_, h, rfl, rfl, rfl, Or.inr rfl⟩

/-- C10: queue integrity is a real invariant.  In every reachable state
the queue holds no duplicate task id and every queued id is a key of the
task map — submission pushes only the fresh id, assignment pops the head,
and the sweep re-enqueues only tasks that were recorded as assigned and
therefore (by the invariant) not queued. -/
theorem claim10_theorem :
    ∀ s : MasterState, Reachable s →
      s.taskQueue.Nodup ∧ ∀ tid ∈ s.taskQueue, (lookupTask s tid).isSome := by
  intro s h
  have hi := inv_reachable h
  exact ⟨hi.nodupQueue, hi.queueInTasks⟩

/-- C10 (witness): the invariant evaluated on the reachable three-task
state whose queue is `[2, 1]`. -/
theorem claim10_witness :
    c8s4.taskQueue.Nodup ∧ ∀ tid ∈ c8s4.taskQueue, (lookupTask c8s4 tid).isSome :=
  claim10_theorem c8s4
    (Reachable.step _ _
      (Reachable.step _ _
        (Reachable.step _ _
          (Reachable.step _ _ Reachable.init (Step.register _ 0 regW1))
          (Step.submit _ 1 "t" "p" 5))
        (Step.submit _ 2 "t" "p" 1))
      (Step.submit _ 3 "t" "p" 5))

end PulseQ
